import Mathlib

/-!
# Verification of the PetChat messaging core

A shallow embedding, in Lean 4, of the parts of the PetChat repository that
the specification's claims are about:

* `src/core/protocol.py` — the frame codec (`Protocol.pack`,
  `Protocol.parse_message`), embedded together with the JSON
  serializer/parser semantics of Python's `json.dumps(..., ensure_ascii=False)`
  and `json.loads` that those functions delegate to, and the UTF-8
  byte encoding of the payload;
* `src/core/providers/retry.py` — `CircuitBreaker` and `retry_with_backoff`;
* `src/core/network.py` — the guest reconnect loop
  (`_connect_guest_with_retries`);
* `src/core/ai_service.py` — the score-normalization core of
  `analyze_emotion`;
* `src/core/server_core.py` — the per-connection message handler of
  `PetChatServer` (`_handle_client_connection` body, `_handle_register`,
  `_handle_chat`, `_handle_disconnect`, `_broadcast`);
* `src/relay_server.py` — `RelayServer._handle_client`,
  `_register_client`, `_cleanup_connection`.

Modelling conventions: Python floats are modelled by `ℚ` (the delay and
score arithmetic in the source uses only `+ * / min` on values where
exactness is the stated property); machine integers and bytes are `Nat`;
JSON numbers are modelled by `Int` (JSON reals — numbers with a fraction
or exponent part — and the float-specific behaviour of `json` are outside
the model); wall-clock instants (`time.monotonic()` / `time.time()`) are
explicit `ℚ` parameters; sockets are identified by `Nat` handles; Python
dicts are insertion-ordered association lists.
-/

namespace PetChat

/-! ## JSON values

The value space of Python's `json` module restricted as described above:
`null`, booleans, integers, strings, arrays, and string-keyed objects.
Python dict keys are unique; `Json.obj` itself does not enforce that, so
well-formedness (`Json.wf`) states it where a theorem needs it.
-/

inductive Json where
  | null : Json
  | bool (b : Bool) : Json
  | num (n : Int) : Json
  | str (s : String) : Json
  | arr (elems : List Json) : Json
  | obj (members : List (String × Json)) : Json
deriving Repr

mutual

/-- Boolean equality on `Json` (structural). -/
def Json.beq : Json → Json → Bool
  | .null, .null => true
  | .bool a, .bool b => a == b
  | .num a, .num b => a == b
  | .str a, .str b => a == b
  | .arr a, .arr b => Json.beqList a b
  | .obj a, .obj b => Json.beqMembers a b
  | _, _ => false

/-- Pointwise equality of element lists. -/
def Json.beqList : List Json → List Json → Bool
  | [], [] => true
  | a :: as, b :: bs => Json.beq a b && Json.beqList as bs
  | _, _ => false

/-- Pointwise equality of member lists. -/
def Json.beqMembers : List (String × Json) → List (String × Json) → Bool
  | [], [] => true
  | (ka, va) :: as, (kb, vb) :: bs => ka == kb && Json.beq va vb && Json.beqMembers as bs
  | _, _ => false

end

mutual

theorem Json.beq_refl : ∀ (a : Json), Json.beq a a = true
  | .null => rfl
  | .bool b => by simp [Json.beq]
  | .num n => by simp [Json.beq]
  | .str s => by simp [Json.beq]
  | .arr es => by simp [Json.beq, Json.beqList_refl es]
  | .obj ms => by simp [Json.beq, Json.beqMembers_refl ms]

theorem Json.beqList_refl : ∀ (as : List Json), Json.beqList as as = true
  | [] => rfl
  | a :: as => by simp [Json.beqList, Json.beq_refl a, Json.beqList_refl as]

theorem Json.beqMembers_refl : ∀ (as : List (String × Json)), Json.beqMembers as as = true
  | [] => rfl
  | (k, v) :: as => by simp [Json.beqMembers, Json.beq_refl v, Json.beqMembers_refl as]

end

mutual

theorem Json.eq_of_beq : ∀ {a b : Json}, Json.beq a b = true → a = b
  | .null, .null, _ => rfl
  | .bool a, .bool b, h => by
      have hab : a = b := by simpa [Json.beq] using h
      exact congrArg Json.bool hab
  | .num a, .num b, h => by
      have hab : a = b := by simpa [Json.beq] using h
      exact congrArg Json.num hab
  | .str a, .str b, h => by
      have hab : a = b := by simpa [Json.beq] using h
      exact congrArg Json.str hab
  | .arr as, .arr bs, h => by
      have : as = bs := Json.eqList_of_beq (by simpa [Json.beq] using h)
      exact congrArg Json.arr this
  | .obj as, .obj bs, h => by
      have : as = bs := Json.eqMembers_of_beq (by simpa [Json.beq] using h)
      exact congrArg Json.obj this

theorem Json.eqList_of_beq : ∀ {as bs : List Json}, Json.beqList as bs = true → as = bs
  | [], [], _ => rfl
  | a :: as, b :: bs, h => by
      have h1 : Json.beq a b = true ∧ Json.beqList as bs = true := by
        simpa [Json.beqList, Bool.and_eq_true] using h
      rw [Json.eq_of_beq h1.1, Json.eqList_of_beq h1.2]

theorem Json.eqMembers_of_beq :
    ∀ {as bs : List (String × Json)}, Json.beqMembers as bs = true → as = bs
  | [], [], _ => rfl
  | (ka, va) :: as, (kb, vb) :: bs, h => by
      have h1 : (ka == kb) = true ∧ Json.beq va vb = true ∧ Json.beqMembers as bs = true := by
        simpa [Json.beqMembers, Bool.and_eq_true, and_assoc] using h
      have hk : ka = kb := by simpa using h1.1
      rw [hk, Json.eq_of_beq h1.2.1, Json.eqMembers_of_beq h1.2.2]

end

instance : DecidableEq Json := fun a b =>
  if h : Json.beq a b = true then .isTrue (Json.eq_of_beq h)
  else .isFalse (fun hab => h (hab ▸ Json.beq_refl a))

/-- No duplicates in a key list. -/
def Json.keysUnique : List String → Bool
  | [] => true
  | k :: ks => !ks.contains k && Json.keysUnique ks

mutual

/-- Well-formedness: every object level has pairwise-distinct keys — the
invariant every value arising from a Python dict satisfies. -/
def Json.wf : Json → Bool
  | .null | .bool _ | .num _ | .str _ => true
  | .arr es => Json.wfList es
  | .obj ms => Json.keysUnique (ms.map Prod.fst) && Json.wfMembers ms

/-- `Json.wf` on every element. -/
def Json.wfList : List Json → Bool
  | [] => true
  | e :: es => Json.wf e && Json.wfList es

/-- `Json.wf` on every member value. -/
def Json.wfMembers : List (String × Json) → Bool
  | [] => true
  | (_, v) :: ms => Json.wf v && Json.wfMembers ms

end

/-! ## Serialization — `json.dumps(data, ensure_ascii=False)`

`Protocol.pack` serializes with `json.dumps(data, ensure_ascii=False)`:
default separators `", "` and `": "`, C-style short escapes for
`\" \\ \b \t \n \f \r`, `\u00XX` (lower-case hex) for the remaining
control characters, all other characters emitted literally.
-/

/-- Lower-case hex digit for `n < 16`. -/
def hexDigit (n : Nat) : Char :=
  if n < 10 then Char.ofNat (48 + n) else Char.ofNat (87 + n)

/-- Decimal digits of `n`, most significant first (`repr` of a Python int). -/
def natToChars (n : Nat) : List Char :=
  if h : n < 10 then [Char.ofNat (48 + n)]
  else natToChars (n / 10) ++ [Char.ofNat (48 + n % 10)]
decreasing_by exact Nat.div_lt_self (by omega) (by omega)

/-- Decimal rendering of a Python int (`json.dumps` output for a number). -/
def intToChars : Int → List Char
  | .ofNat n => natToChars n
  | .negSucc m => '-' :: natToChars (m + 1)

/-- The escape `json.dumps(..., ensure_ascii=False)` applies to one character
(the `ESCAPE` regex plus `ESCAPE_DCT` of CPython's `json.encoder`). -/
def escapeChar (c : Char) : List Char :=
  if c = '"' then ['\\', '"']
  else if c = '\\' then ['\\', '\\']
  else if c.toNat < 0x20 then
    if c = '\x08' then ['\\', 'b']
    else if c = '\t' then ['\\', 't']
    else if c = '\n' then ['\\', 'n']
    else if c = '\x0c' then ['\\', 'f']
    else if c = '\x0d' then ['\\', 'r']
    else ['\\', 'u', '0', '0', hexDigit (c.toNat / 16), hexDigit (c.toNat % 16)]
  else [c]

/-- Body of a serialized JSON string (no surrounding quotes). -/
def escapeChars : List Char → List Char
  | [] => []
  | c :: cs => escapeChar c ++ escapeChars cs

/-- A serialized JSON string, quotes included. -/
def serStr (cs : List Char) : List Char :=
  '"' :: escapeChars cs ++ ['"']

mutual

/-- `json.dumps(v, ensure_ascii=False)` as a character list. -/
def serJson : Json → List Char
  | .null => 'n' :: 'u' :: ['l', 'l']
  | .bool true => 't' :: 'r' :: ['u', 'e']
  | .bool false => 'f' :: 'a' :: ['l', 's', 'e']
  | .num i => intToChars i
  | .str s => serStr s.toList
  | .arr es => '[' :: serElems es ++ [']']
  | .obj ms => '\x7b' :: serMembers ms ++ ['\x7d']

/-- Array elements joined by the default item separator `", "`. -/
def serElems : List Json → List Char
  | [] => []
  | [e] => serJson e
  | e :: es => serJson e ++ ',' :: ' ' :: serElems es

/-- Object members `"key": value` joined by `", "`. -/
def serMembers : List (String × Json) → List Char
  | [] => []
  | [(k, v)] => serStr k.toList ++ ':' :: ' ' :: serJson v
  | (k, v) :: ms => serStr k.toList ++ ':' :: ' ' :: serJson v ++ ',' :: ' ' :: serMembers ms

end

/-- `json.dumps(data, ensure_ascii=False)` — the exact serializer called by
`Protocol.pack` in `src/core/protocol.py`. -/
def json_dumps (v : Json) : String := String.mk (serJson v)

/-! ## Parsing — `json.loads`

The decoder of CPython's `json` module (strict mode, default hooks), on
the value space above: whitespace `space/tab/newline/carriage-return`
between tokens, the literals `null/true/false`, strings with the eight
short escapes and `\uXXXX` (surrogate pairs combined), integers
`-?(0|[1-9][0-9]*)`, arrays, and objects whose pairs are collapsed
last-value-wins into a dict as `dict(pairs)` does.

Model limits (outside the value space of `Json`): JSON reals — a number
continued by `.`/`e`/`E` — and the constants `NaN`, `Infinity`, `-Infinity`
parse to Python floats and are not represented, and a string escape
denoting a lone surrogate is not representable; the parser answers
`none` there. The recursion budget passed by `json_loads` exceeds twice
the input length, which bounds the parser's call depth, so the budget is
never the reason for a `none` answer.
-/

/-- JSON whitespace (`json.decoder.WHITESPACE_STR`). -/
def isWsChar (c : Char) : Bool := c = ' ' || c = '\t' || c = '\n' || c = '\x0d'

/-- Skip leading JSON whitespace. -/
def skipWs : List Char → List Char
  | [] => []
  | c :: rest => if isWsChar c then skipWs rest else c :: rest

/-- Value of one hex digit, upper or lower case. -/
def hexVal (c : Char) : Option Nat :=
  if 48 ≤ c.toNat ∧ c.toNat ≤ 57 then some (c.toNat - 48)
  else if 97 ≤ c.toNat ∧ c.toNat ≤ 102 then some (c.toNat - 87)
  else if 65 ≤ c.toNat ∧ c.toNat ≤ 70 then some (c.toNat - 55)
  else none

/-- The single-character escapes of `json.decoder.BACKSLASH`. -/
def escDecode (e : Char) : Option Char :=
  if e = '"' then some '"'
  else if e = '\\' then some '\\'
  else if e = '/' then some '/'
  else if e = 'b' then some '\x08'
  else if e = 'f' then some '\x0c'
  else if e = 'n' then some '\n'
  else if e = 'r' then some '\x0d'
  else if e = 't' then some '\t'
  else none

/-- Value of four hex digits. -/
def hexNat (h1 h2 h3 h4 : Char) : Option Nat :=
  match hexVal h1, hexVal h2, hexVal h3, hexVal h4 with
  | some a, some b, some k, some d => some (a * 4096 + b * 256 + k * 16 + d)
  | _, _, _, _ => none

/-- A `\uXXXX` escape denoting a low surrogate, at the head of the input. -/
def lowSurrogate : List Char → Option (Nat × List Char)
  | c0 :: c1 :: g1 :: g2 :: g3 :: g4 :: rest =>
    if c0 = '\\' then
      if c1 = 'u' then
        match hexNat g1 g2 g3 g4 with
        | some n2 =>
          if 0xDC00 ≤ n2 then
            if n2 ≤ 0xDFFF then some (n2, rest) else none
          else none
        | none => none
      else none
    else none
  | _ => none

/-- One step of `py_scanstring` (strict mode): the closing quote
(`some (none, rest)`), one decoded character (`some (some c, rest)`), or
a failure. A `\uXXXX` escape denoting a high surrogate must be completed
by a low-surrogate escape (the combined scalar); a lone surrogate is not
representable as a `Char` and fails here, where CPython would keep it. -/
def strChunk : List Char → Option (Option Char × List Char)
  | [] => none
  | c :: rest =>
    if c = '"' then some (none, rest)
    else if c = '\\' then
      match rest with
      | [] => none
      | e :: rest2 =>
        if e = 'u' then
          match rest2 with
          | h1 :: h2 :: h3 :: h4 :: rest3 =>
            match hexNat h1 h2 h3 h4 with
            | some n =>
              if n < 0xD800 then some (some (Char.ofNat n), rest3)
              else if n ≤ 0xDBFF then
                match lowSurrogate rest3 with
                | some (n2, rest4) =>
                    some (some (Char.ofNat (0x10000 + (n - 0xD800) * 0x400 + (n2 - 0xDC00))),
                      rest4)
                | none => none
              else if n ≤ 0xDFFF then none
              else some (some (Char.ofNat n), rest3)
            | none => none
          | _ => none
        else
          match escDecode e with
          | some d => some (some d, rest2)
          | none => none
    else if c.toNat < 0x20 then none
    else some (some c, rest)

/-- The loop of `py_scanstring`, with an explicit step budget: every step
consumes at least one character, so a budget of the input length never
runs out. -/
def parseStringF : Nat → List Char → Option (List Char × List Char)
  | 0, _ => none
  | fuel + 1, l =>
    match strChunk l with
    | some (none, rest) => some ([], rest)
    | some (some c, rest) =>
      match parseStringF fuel rest with
      | some (s, r) => some (c :: s, r)
      | none => none
    | none => none

/-- Body of a JSON string after the opening quote: yields the decoded
characters and the input after the closing quote (`py_scanstring`,
strict mode, with surrogate-pair combination). -/
def parseStringBody (l : List Char) : Option (List Char × List Char) :=
  parseStringF l.length l

/-- ASCII decimal digit. -/
def isDigitChar (c : Char) : Bool := 48 ≤ c.toNat && c.toNat ≤ 57

/-- Numeric value of an ASCII digit. -/
def digitVal (c : Char) : Nat := c.toNat - 48

/-- Longest digit prefix and the remainder. -/
def takeDigits : List Char → List Char × List Char
  | [] => ([], [])
  | c :: rest =>
    if isDigitChar c then
      let (ds, r) := takeDigits rest
      (c :: ds, r)
    else ([], c :: rest)

/-- Value of a digit string, most significant first. -/
def digitsToNat (ds : List Char) : Nat := ds.foldl (fun acc c => 10 * acc + digitVal c) 0

/-- The integer alternative `0|[1-9][0-9]*` of `json.scanner.NUMBER_RE`. -/
def parseIntPart : List Char → Option (Nat × List Char)
  | [] => none
  | c :: rest =>
    if c = '0' then some (0, rest)
    else if isDigitChar c then
      let (ds, r) := takeDigits rest
      some (digitsToNat (c :: ds), r)
    else none

/-- Reject a number continued by a fraction or exponent part: such a
number is a Python float — outside the model. -/
def numFinish (i : Int) : List Char → Option (Int × List Char)
  | [] => some (i, [])
  | c :: t => if c = '.' ∨ c = 'e' ∨ c = 'E' then none else some (i, c :: t)

/-- A JSON number at the head of the input (integers only, see above). -/
def parseNumber (l : List Char) : Option (Int × List Char) :=
  if l.head? = some '-' then
    match parseIntPart l.tail with
    | some (n, after) => numFinish (-(n : Int)) after
    | none => none
  else
    match parseIntPart l with
    | some (n, after) => numFinish (n : Int) after
    | none => none

/-- Replace the value at the first occurrence of key `k`, else append —
one `d[k] = v` step of building a Python dict. -/
def setKey : List (String × Json) → String → Json → List (String × Json)
  | [], k, v => [(k, v)]
  | (k0, v0) :: rest, k, v =>
    if k0 = k then (k0, v) :: rest
    else (k0, v0) :: setKey rest k v

/-- `dict(pairs)`: later pairs overwrite the value but keep the first
occurrence's position. -/
def dictFromPairs (ps : List (String × Json)) : List (String × Json) :=
  ps.foldl (fun acc kv => setKey acc kv.1 kv.2) []

mutual

/-- One JSON value at the head of the input (`_scan_once`, with the
whitespace skipping its call sites perform); returns the value and the
unconsumed remainder. The first argument is the recursion budget. -/
def parseValue : Nat → List Char → Option (Json × List Char)
  | 0, _ => none
  | fuel + 1, input =>
    match skipWs input with
    | [] => none
    | c :: rest =>
      if c = 'n' then
        match rest with
        | 'u' :: 'l' :: 'l' :: r => some (.null, r)
        | _ => none
      else if c = 't' then
        match rest with
        | 'r' :: 'u' :: 'e' :: r => some (.bool true, r)
        | _ => none
      else if c = 'f' then
        match rest with
        | 'a' :: 'l' :: 's' :: 'e' :: r => some (.bool false, r)
        | _ => none
      else if c = '"' then
        match parseStringBody rest with
        | some (s, r) => some (.str (String.mk s), r)
        | none => none
      else if c = '[' then
        match skipWs rest with
        | ']' :: r => some (.arr [], r)
        | inner =>
          match parseElemsFrom fuel inner with
          | some (es, r) => some (.arr es, r)
          | none => none
      else if c = '\x7b' then
        match skipWs rest with
        | '\x7d' :: r => some (.obj [], r)
        | inner =>
          match parseMembersFrom fuel inner with
          | some (ms, r) => some (.obj (dictFromPairs ms), r)
          | none => none
      else
        match parseNumber (c :: rest) with
        | some (i, r) => some (.num i, r)
        | none => none

/-- Elements of a non-empty array, positioned at the first element
(whitespace already skipped); consumes through the closing `]`. -/
def parseElemsFrom : Nat → List Char → Option (List Json × List Char)
  | 0, _ => none
  | fuel + 1, input =>
    match parseValue fuel input with
    | none => none
    | some (v, r) =>
      match skipWs r with
      | ']' :: r2 => some ([v], r2)
      | ',' :: r2 =>
        match parseElemsFrom fuel (skipWs r2) with
        | some (vs, r3) => some (v :: vs, r3)
        | none => none
      | _ => none

/-- Members of a non-empty object, positioned at the opening quote of the
first key (whitespace already skipped); consumes through the closing
brace and returns the pairs in source order. -/
def parseMembersFrom : Nat → List Char → Option (List (String × Json) × List Char)
  | 0, _ => none
  | fuel + 1, input =>
    match input with
    | '"' :: r0 =>
      match parseStringBody r0 with
      | none => none
      | some (k, r1) =>
        match skipWs r1 with
        | ':' :: r2 =>
          match parseValue fuel (skipWs r2) with
          | none => none
          | some (v, r3) =>
            match skipWs r3 with
            | '\x7d' :: r4 => some ([(String.mk k, v)], r4)
            | ',' :: r4 =>
              match parseMembersFrom fuel (skipWs r4) with
              | some (ms, r5) => some ((String.mk k, v) :: ms, r5)
              | none => none
            | _ => none
        | _ => none
    | _ => none

end

/-- `json.loads(s)`: one value, then only whitespace to the end
(`JSONDecoder.decode` raises `Extra data` otherwise). -/
def json_loads (s : String) : Option Json :=
  let l := s.toList
  match parseValue (2 * l.length + 2) l with
  | some (v, rest) => if skipWs rest = [] then some v else none
  | none => none

/-! ## UTF-8

`Protocol.pack` encodes the serialized text with `str.encode('utf-8')`
and `Protocol.parse_message` decodes with `bytes.decode('utf-8')`
(strict: overlong forms, surrogates, and values above `0x10FFFF`
rejected). Bytes are `Nat < 256`.
-/

/-- UTF-8 bytes of one scalar value. -/
def utf8EncodeChar (c : Char) : List Nat :=
  let n := c.toNat
  if n < 0x80 then [n]
  else if n < 0x800 then [0xC0 + n / 64, 0x80 + n % 64]
  else if n < 0x10000 then [0xE0 + n / 4096, 0x80 + n / 64 % 64, 0x80 + n % 64]
  else [0xF0 + n / 262144, 0x80 + n / 4096 % 64, 0x80 + n / 64 % 64, 0x80 + n % 64]

/-- UTF-8 bytes of a character list. -/
def utf8EncodeChars : List Char → List Nat
  | [] => []
  | c :: cs => utf8EncodeChar c ++ utf8EncodeChars cs

/-- `s.encode('utf-8')`. -/
def utf8Encode (s : String) : List Nat := utf8EncodeChars s.toList

/-- Is `b` a UTF-8 continuation byte? -/
def utf8Cont (b : Nat) : Bool := 0x80 ≤ b && b < 0xC0

/-- Scalar value of a 2-byte sequence, with overlong forms rejected. -/
def utf8Val2 (b b1 : Nat) : Option Nat :=
  if utf8Cont b1 then
    if 0x80 ≤ (b - 0xC0) * 64 + (b1 - 0x80) then some ((b - 0xC0) * 64 + (b1 - 0x80)) else none
  else none

/-- Scalar value of a 3-byte sequence, with overlong forms and surrogates
rejected. -/
def utf8Val3 (b b1 b2 : Nat) : Option Nat :=
  if utf8Cont b1 && utf8Cont b2 then
    if 0x800 ≤ (b - 0xE0) * 4096 + (b1 - 0x80) * 64 + (b2 - 0x80) then
      if 0xD800 ≤ (b - 0xE0) * 4096 + (b1 - 0x80) * 64 + (b2 - 0x80) then
        if (b - 0xE0) * 4096 + (b1 - 0x80) * 64 + (b2 - 0x80) ≤ 0xDFFF then none
        else some ((b - 0xE0) * 4096 + (b1 - 0x80) * 64 + (b2 - 0x80))
      else some ((b - 0xE0) * 4096 + (b1 - 0x80) * 64 + (b2 - 0x80))
    else none
  else none

/-- Scalar value of a 4-byte sequence, with overlong forms and values past
the last scalar value rejected. -/
def utf8Val4 (b b1 b2 b3 : Nat) : Option Nat :=
  if utf8Cont b1 && utf8Cont b2 && utf8Cont b3 then
    if 0x10000 ≤ (b - 0xF0) * 262144 + (b1 - 0x80) * 4096 + (b2 - 0x80) * 64 + (b3 - 0x80) then
      if (b - 0xF0) * 262144 + (b1 - 0x80) * 4096 + (b2 - 0x80) * 64 + (b3 - 0x80) ≤ 0x10FFFF then
        some ((b - 0xF0) * 262144 + (b1 - 0x80) * 4096 + (b2 - 0x80) * 64 + (b3 - 0x80))
      else none
    else none
  else none

/-- One UTF-8 sequence at the head: the scalar value and the remaining
bytes, or a failure (truncation, stray/missing continuation, overlong
form, surrogate, out of range). The lead byte is the first argument. -/
def utf8Step (b : Nat) (rest : List Nat) : Option (Nat × List Nat) :=
  if b < 0x80 then some (b, rest)
  else if b < 0xC0 then none
  else if b < 0xE0 then
    match rest with
    | b1 :: rest1 =>
      match utf8Val2 b b1 with
      | some n => some (n, rest1)
      | none => none
    | [] => none
  else if b < 0xF0 then
    match rest with
    | b1 :: b2 :: rest2 =>
      match utf8Val3 b b1 b2 with
      | some n => some (n, rest2)
      | none => none
    | _ => none
  else if b < 0xF8 then
    match rest with
    | b1 :: b2 :: b3 :: rest3 =>
      match utf8Val4 b b1 b2 b3 with
      | some n => some (n, rest3)
      | none => none
    | _ => none
  else none

/-- The decode loop, with an explicit step budget: every step consumes the
lead byte, so a budget of the input length never runs out. -/
def utf8DecodeF : Nat → List Nat → Option (List Char)
  | _, [] => some []
  | 0, _ :: _ => none
  | fuel + 1, b :: rest =>
    match utf8Step b rest with
    | some (n, rest2) =>
      match utf8DecodeF fuel rest2 with
      | some cs => some (Char.ofNat n :: cs)
      | none => none
    | none => none

/-- `bytes.decode('utf-8')`, strict. -/
def utf8Decode (l : List Nat) : Option (List Char) := utf8DecodeF l.length l

/-! ## The frame codec — `Protocol` in `src/core/protocol.py` -/

namespace Protocol

/-- 4 bytes length + 4 bytes CRC32. -/
def HEADER_SIZE : Nat := 8

/-- One bit step of the reflected CRC-32 (polynomial `0xEDB88320`). -/
def crc32Round (r : Nat) : Nat := if r % 2 = 1 then (r / 2) ^^^ 0xEDB88320 else r / 2

/-- Absorb one byte into the CRC register. -/
def crc32Byte (r b : Nat) : Nat := crc32Round^[8] (r ^^^ b % 256)

/-- `zlib.crc32(payload) & 0xFFFFFFFF`. -/
def crc32 (bytes : List Nat) : Nat := 0xFFFFFFFF ^^^ bytes.foldl crc32Byte 0xFFFFFFFF

/-- Big-endian 4-byte rendering (`struct.pack('>I', n)`). -/
def be4 (n : Nat) : List Nat := [n / 16777216 % 256, n / 65536 % 256, n / 256 % 256, n % 256]

/-- `Protocol.pack`: UTF-8 JSON payload prefixed by the 8-byte header
`>II` of payload length and CRC32. -/
def pack (data : Json) : List Nat :=
  let payload := utf8Encode (json_dumps data)
  be4 payload.length ++ be4 (crc32 payload) ++ payload

/-- `Protocol.verify_crc`. -/
def verify_crc (payload : List Nat) (expected : Nat) : Bool := crc32 payload == expected

/-- `Protocol.parse_message`: decode the payload bytes as UTF-8 and parse
as JSON; any failure answers `None`. -/
def parse_message (payload : List Nat) : Option Json :=
  match utf8Decode payload with
  | some cs => json_loads (String.mk cs)
  | none => none

end Protocol

/-! ## Round-trip: UTF-8 -/

/-- `Char.ofNat` inverts `Char.toNat` on valid scalar values. -/
theorem char_toNat_ofNat {n : Nat} (h : n.isValidChar) : (Char.ofNat n).toNat = n := by
  simp [Char.ofNat, h, Char.ofNatAux, Char.toNat, UInt32.toNat]

/-- The encoding of one character decodes back to its scalar value, in
front of any remainder. -/
theorem utf8Step_enc (c : Char) (rest : List Nat) :
    ∃ b tail, utf8EncodeChar c = b :: tail ∧ utf8Step b (tail ++ rest) = some (c.toNat, rest) := by
  have hv : c.toNat < 0xd800 ∨ (0xdfff < c.toNat ∧ c.toNat < 0x110000) := c.valid
  rcases Nat.lt_or_ge c.toNat 0x80 with h1 | h1
  · refine ⟨c.toNat, [], by rw [utf8EncodeChar]; rw [if_pos h1], ?_⟩
    simp only [List.nil_append, utf8Step]
    rw [if_pos h1]
  · rcases Nat.lt_or_ge c.toNat 0x800 with h2 | h2
    · refine ⟨0xC0 + c.toNat / 64, [0x80 + c.toNat % 64],
        by rw [utf8EncodeChar]; rw [if_neg (by omega), if_pos h2], ?_⟩
      simp only [List.cons_append, List.nil_append, utf8Step]
      rw [if_neg (by omega), if_neg (by omega), if_pos (by omega)]
      simp only [utf8Val2]
      rw [show utf8Cont (0x80 + c.toNat % 64) = true from by
        simp only [utf8Cont, Bool.and_eq_true, decide_eq_true_eq]; omega]
      rw [if_pos rfl, if_pos (by omega)]
      rw [show (0xC0 + c.toNat / 64 - 0xC0) * 64 + (0x80 + c.toNat % 64 - 0x80) = c.toNat from by
        omega]
    · rcases Nat.lt_or_ge c.toNat 0x10000 with h3 | h3
      · refine ⟨0xE0 + c.toNat / 4096, [0x80 + c.toNat / 64 % 64, 0x80 + c.toNat % 64],
          by rw [utf8EncodeChar]; rw [if_neg (by omega), if_neg (by omega), if_pos h3], ?_⟩
        simp only [List.cons_append, List.nil_append, utf8Step]
        rw [if_neg (by omega), if_neg (by omega), if_neg (by omega), if_pos (by omega)]
        simp only [utf8Val3]
        rw [show (utf8Cont (0x80 + c.toNat / 64 % 64) && utf8Cont (0x80 + c.toNat % 64)) = true
          from by simp only [utf8Cont, Bool.and_eq_true, decide_eq_true_eq]; omega]
        rw [if_pos rfl]
        rw [show (0xE0 + c.toNat / 4096 - 0xE0) * 4096 + (0x80 + c.toNat / 64 % 64 - 0x80) * 64 +
            (0x80 + c.toNat % 64 - 0x80) = c.toNat from by omega]
        rw [if_pos (by omega)]
        rcases hv with hv | hv
        · rw [if_neg (by omega)]
        · rw [if_pos (by omega), if_neg (by omega)]
      · refine ⟨0xF0 + c.toNat / 262144,
          [0x80 + c.toNat / 4096 % 64, 0x80 + c.toNat / 64 % 64, 0x80 + c.toNat % 64],
          by rw [utf8EncodeChar]; rw [if_neg (by omega), if_neg (by omega), if_neg (by omega)],
          ?_⟩
        simp only [List.cons_append, List.nil_append, utf8Step]
        rw [if_neg (by omega), if_neg (by omega), if_neg (by omega), if_neg (by omega),
          if_pos (by omega)]
        simp only [utf8Val4]
        rw [show (utf8Cont (0x80 + c.toNat / 4096 % 64) && utf8Cont (0x80 + c.toNat / 64 % 64) &&
            utf8Cont (0x80 + c.toNat % 64)) = true from by
          simp only [utf8Cont, Bool.and_eq_true, decide_eq_true_eq]; omega]
        rw [if_pos rfl]
        rw [show (0xF0 + c.toNat / 262144 - 0xF0) * 262144 +
            (0x80 + c.toNat / 4096 % 64 - 0x80) * 4096 + (0x80 + c.toNat / 64 % 64 - 0x80) * 64 +
            (0x80 + c.toNat % 64 - 0x80) = c.toNat from by omega]
        rw [if_pos (by omega), if_pos (by omega)]

/-- The decode loop inverts the encoder given enough budget. -/
theorem utf8DecodeF_enc (cs : List Char) :
    ∀ fuel, cs.length ≤ fuel → utf8DecodeF fuel (utf8EncodeChars cs) = some cs := by
  induction cs with
  | nil => intro fuel _; cases fuel <;> rfl
  | cons c cs ih =>
    intro fuel hf
    obtain ⟨f, rfl⟩ : ∃ f, fuel = f + 1 := ⟨fuel - 1, by simp at hf; omega⟩
    obtain ⟨b, tail, henc, hstep⟩ := utf8Step_enc c (utf8EncodeChars cs)
    rw [utf8EncodeChars, henc, List.cons_append, utf8DecodeF]
    simp only [hstep, ih f (by simp at hf; omega), Char.ofNat_toNat]

/-- Each character contributes at least one byte. -/
theorem utf8EncodeChars_length (cs : List Char) : cs.length ≤ (utf8EncodeChars cs).length := by
  induction cs with
  | nil => simp [utf8EncodeChars]
  | cons c cs ih =>
    rw [utf8EncodeChars]
    obtain ⟨b, tail, henc, -⟩ := utf8Step_enc c []
    rw [henc]
    simp only [List.length_append, List.length_cons]
    omega

/-- Decoding inverts encoding on whole character lists. -/
theorem utf8Decode_encodeChars (cs : List Char) : utf8Decode (utf8EncodeChars cs) = some cs :=
  utf8DecodeF_enc cs _ (utf8EncodeChars_length cs)

/-! ## Round-trip: strings -/

/-- `hexVal` inverts `hexDigit`. -/
theorem hexVal_hexDigit (m : Nat) (h : m < 16) : hexVal (hexDigit m) = some m := by
  interval_cases m <;> rfl

/-- A closing quote ends the scan. -/
theorem strChunk_quote (rest : List Char) : strChunk ('"' :: rest) = some (none, rest) := rfl

/-- The escape of any character scans back to that character. -/
theorem strChunk_escape (c : Char) (rest : List Char) :
    strChunk (escapeChar c ++ rest) = some (some c, rest) := by
  rw [escapeChar]
  by_cases h1 : c = '"'
  · subst h1; rw [if_pos rfl]; rfl
  rw [if_neg h1]
  by_cases h2 : c = '\\'
  · subst h2; rw [if_pos rfl]; rfl
  rw [if_neg h2]
  by_cases h3 : c.toNat < 0x20
  · rw [if_pos h3]
    by_cases hb : c = '\x08'
    · subst hb; rw [if_pos rfl]; rfl
    rw [if_neg hb]
    by_cases ht : c = '\t'
    · subst ht; rw [if_pos rfl]; rfl
    rw [if_neg ht]
    by_cases hn : c = '\n'
    · subst hn; rw [if_pos rfl]; rfl
    rw [if_neg hn]
    by_cases hf : c = '\x0c'
    · subst hf; rw [if_pos rfl]; rfl
    rw [if_neg hf]
    by_cases hr : c = '\x0d'
    · subst hr; rw [if_pos rfl]; rfl
    rw [if_neg hr]
    simp only [List.cons_append, List.nil_append, strChunk]
    rw [if_neg (show ¬('\\' = '"') from by decide), if_pos trivial, if_pos trivial]
    simp only [hexNat, show hexVal '0' = some 0 from rfl,
      hexVal_hexDigit (c.toNat / 16) (by omega), hexVal_hexDigit (c.toNat % 16) (by omega)]
    rw [show 0 * 4096 + 0 * 256 + c.toNat / 16 * 16 + c.toNat % 16 = c.toNat from by omega]
    rw [if_pos (by omega), Char.ofNat_toNat]
  · rw [if_neg h3]
    simp only [List.cons_append, List.nil_append, strChunk]
    rw [if_neg h1, if_neg h2, if_neg h3]

/-- The string-scan loop inverts the escaper given enough budget. -/
theorem parseStringF_enc (cs : List Char) :
    ∀ (fuel : Nat) (rest : List Char), cs.length + 1 ≤ fuel →
      parseStringF fuel (escapeChars cs ++ '"' :: rest) = some (cs, rest) := by
  induction cs with
  | nil =>
    intro fuel rest hf
    obtain ⟨f, rfl⟩ : ∃ f, fuel = f + 1 := ⟨fuel - 1, by omega⟩
    rw [escapeChars, List.nil_append, parseStringF]
    simp only [strChunk_quote]
  | cons c cs ih =>
    intro fuel rest hf
    obtain ⟨f, rfl⟩ : ∃ f, fuel = f + 1 := ⟨fuel - 1, by omega⟩
    rw [escapeChars, parseStringF, List.append_assoc, strChunk_escape]
    simp only [ih f rest (by simp at hf; omega)]

/-- Escaping never shortens a string. -/
theorem escapeChars_length (cs : List Char) : cs.length ≤ (escapeChars cs).length := by
  induction cs with
  | nil => simp [escapeChars]
  | cons c cs ih =>
    rw [escapeChars]
    have h1 : 1 ≤ (escapeChar c).length := by
      rw [escapeChar]; split_ifs <;> simp
    simp only [List.length_append, List.length_cons]
    omega

/-- The body scanner inverts the escaper. -/
theorem parseStringBody_enc (cs : List Char) (rest : List Char) :
    parseStringBody (escapeChars cs ++ '"' :: rest) = some (cs, rest) := by
  rw [parseStringBody]
  apply parseStringF_enc
  have := escapeChars_length cs
  simp only [List.length_append, List.length_cons]
  omega

/-! ## Round-trip: numbers -/

/-- The digit characters produced for `m < 10` are digits. -/
theorem isDigitChar_ofNat (m : Nat) (h : m < 10) : isDigitChar (Char.ofNat (48 + m)) = true := by
  simp only [isDigitChar, char_toNat_ofNat (Or.inl (by omega : 48 + m < 0xd800)),
    Bool.and_eq_true, decide_eq_true_eq]
  omega

/-- Every character of a decimal rendering is a digit. -/
theorem natToChars_digits (n : Nat) : ∀ c ∈ natToChars n, isDigitChar c = true := by
  induction n using Nat.strong_induction_on with
  | _ n ih =>
    rw [natToChars]
    split
    · intro c hc
      rw [List.mem_singleton] at hc
      subst hc
      exact isDigitChar_ofNat n (by omega)
    · intro c hc
      rcases List.mem_append.mp hc with hc | hc
      · exact ih (n / 10) (Nat.div_lt_self (by omega) (by omega)) c hc
      · rw [List.mem_singleton] at hc
        subst hc
        exact isDigitChar_ofNat (n % 10) (by omega)

/-- A decimal rendering is never empty. -/
theorem natToChars_ne_nil (n : Nat) : natToChars n ≠ [] := by
  rw [natToChars]
  split
  · simp
  · simp

/-- One appended digit shifts the accumulated value. -/
theorem digitsToNat_append_digit (ds : List Char) (d : Char) :
    digitsToNat (ds ++ [d]) = 10 * digitsToNat ds + digitVal d := by
  simp [digitsToNat, List.foldl_append]

/-- Digit values read back the rendered number. -/
theorem digitsToNat_natToChars (n : Nat) : digitsToNat (natToChars n) = n := by
  induction n using Nat.strong_induction_on with
  | _ n ih =>
    rw [natToChars]
    split
    · simp [digitsToNat, digitVal, char_toNat_ofNat (Or.inl (by omega : 48 + n < 0xd800))]
    · rw [digitsToNat_append_digit, ih (n / 10) (Nat.div_lt_self (by omega) (by omega))]
      simp only [digitVal, char_toNat_ofNat (Or.inl (by omega : 48 + n % 10 < 0xd800))]
      omega

/-- A positive number renders with a non-zero leading digit. -/
theorem natToChars_head_pos (n : Nat) (h : 1 ≤ n) :
    ∃ c cs, natToChars n = c :: cs ∧ c ≠ '0' ∧ isDigitChar c = true := by
  induction n using Nat.strong_induction_on with
  | _ n ih =>
    rw [natToChars]
    split
    · refine ⟨Char.ofNat (48 + n), [], rfl, ?_, isDigitChar_ofNat n (by omega)⟩
      intro hc
      have := congrArg Char.toNat hc
      rw [char_toNat_ofNat (Or.inl (by omega : 48 + n < 0xd800))] at this
      have h0 : ('0' : Char).toNat = 48 := rfl
      omega
    · obtain ⟨c, cs, hsplit, hc0, hcd⟩ :=
        ih (n / 10) (Nat.div_lt_self (by omega) (by omega)) (by omega)
      exact ⟨c, cs ++ [Char.ofNat (48 + n % 10)], by rw [hsplit]; rfl, hc0, hcd⟩

/-- The continuation after a serialized number must not begin with a digit
or a fraction/exponent lead-in. -/
def numDelim : List Char → Prop
  | [] => True
  | c :: _ => isDigitChar c = false ∧ c ≠ '.' ∧ c ≠ 'e' ∧ c ≠ 'E'

/-- `takeDigits` splits exactly at the end of a digit block. -/
theorem takeDigits_append (ds rest : List Char) (hds : ∀ c ∈ ds, isDigitChar c = true)
    (hrest : numDelim rest) : takeDigits (ds ++ rest) = (ds, rest) := by
  induction ds with
  | nil =>
    cases rest with
    | nil => rfl
    | cons c t =>
      rw [List.nil_append, takeDigits]
      rw [if_neg (by rw [hrest.1]; simp)]
  | cons d ds ih =>
    rw [List.cons_append, takeDigits, if_pos (hds d (by simp))]
    rw [ih (fun c hc => hds c (by simp [hc]))]

/-- `parseIntPart` reads back a rendered natural number. -/
theorem parseIntPart_enc (n : Nat) (rest : List Char) (hrest : numDelim rest) :
    parseIntPart (natToChars n ++ rest) = some (n, rest) := by
  rcases Nat.lt_or_ge n 1 with h1 | h1
  · have hn : n = 0 := by omega
    subst hn
    rw [show natToChars 0 = ['0'] from by rw [natToChars]; rfl]
    rw [List.cons_append, List.nil_append, parseIntPart, if_pos rfl]
  · obtain ⟨c, cs, hsplit, hc0, hcd⟩ := natToChars_head_pos n h1
    rw [hsplit, List.cons_append, parseIntPart, if_neg hc0, if_pos hcd]
    have hds : ∀ x ∈ cs, isDigitChar x = true := by
      intro x hx
      exact natToChars_digits n x (by rw [hsplit]; simp [hx])
    rw [takeDigits_append cs rest hds hrest]
    have hval : digitsToNat (c :: cs) = n := by rw [← hsplit]; exact digitsToNat_natToChars n
    simp only [hval]

/-- A digit head is not a minus sign. -/
theorem digit_ne_minus {c : Char} (h : isDigitChar c = true) : c ≠ '-' := by
  intro hc
  rw [hc] at h
  exact absurd h (by decide)

/-- `parseNumber` reads back a rendered integer. -/
theorem parseNumber_enc (i : Int) (rest : List Char) (hrest : numDelim rest) :
    parseNumber (intToChars i ++ rest) = some (i, rest) := by
  have hfinish : numFinish i rest = some (i, rest) := by
    cases rest with
    | nil => rfl
    | cons c t =>
      rw [numFinish, if_neg]
      rcases hrest with ⟨-, h2, h3, h4⟩
      rintro (h | h | h) <;> [exact h2 h; exact h3 h; exact h4 h]
  cases i with
  | ofNat n =>
    rw [show intToChars (Int.ofNat n) = natToChars n from rfl]
    have hhead : (natToChars n ++ rest).head? ≠ some '-' := by
      cases hsp : natToChars n with
      | nil => exact absurd hsp (natToChars_ne_nil n)
      | cons c cs =>
        have hcd : isDigitChar c = true := natToChars_digits n c (by rw [hsp]; simp)
        simp only [List.cons_append, List.head?_cons, ne_eq, Option.some.injEq]
        exact digit_ne_minus hcd
    rw [parseNumber, if_neg hhead, parseIntPart_enc n rest hrest]
    exact hfinish
  | negSucc m =>
    rw [show intToChars (Int.negSucc m) = '-' :: natToChars (m + 1) from rfl, List.cons_append]
    rw [parseNumber]
    rw [if_pos (by simp)]
    rw [show ('-' :: (natToChars (m + 1) ++ rest)).tail = natToChars (m + 1) ++ rest from rfl]
    rw [parseIntPart_enc (m + 1) rest hrest]
    have hneg : -((m + 1 : Nat) : Int) = Int.negSucc m := by
      simp [Int.negSucc_eq]
    simp only [hneg]
    exact hfinish

/-! ## Round-trip: values -/

/-- Characters that can begin a serialized JSON value. -/
def valHead (c : Char) : Prop :=
  c = 'n' ∨ c = 't' ∨ c = 'f' ∨ c = '"' ∨ c = '[' ∨ c = '\x7b' ∨ c = '-' ∨ isDigitChar c = true

/-- What a digit head cannot be. -/
theorem digit_head_facts {c : Char} (hd : isDigitChar c = true) :
    isWsChar c = false ∧ c ≠ ']' ∧ c ≠ '\x7d' ∧ c ≠ ',' ∧ c ≠ ':' := by
  have hb : 48 ≤ c.toNat ∧ c.toNat ≤ 57 := by
    simpa [isDigitChar, Bool.and_eq_true, decide_eq_true_eq] using hd
  have hne : ∀ d : Char, c.toNat ≠ d.toNat → c ≠ d := fun d h hc => h (by rw [hc])
  refine ⟨?_, hne _ (by rw [show (']' : Char).toNat = 93 from rfl]; omega),
    hne _ (by rw [show ('\x7d' : Char).toNat = 125 from rfl]; omega),
    hne _ (by rw [show (',' : Char).toNat = 44 from rfl]; omega),
    hne _ (by rw [show (':' : Char).toNat = 58 from rfl]; omega)⟩
  have h1 : c ≠ ' ' := hne _ (by rw [show (' ' : Char).toNat = 32 from rfl]; omega)
  have h2 : c ≠ '\t' := hne _ (by rw [show ('\t' : Char).toNat = 9 from rfl]; omega)
  have h3 : c ≠ '\n' := hne _ (by rw [show ('\n' : Char).toNat = 10 from rfl]; omega)
  have h4 : c ≠ '\x0d' := hne _ (by rw [show ('\x0d' : Char).toNat = 13 from rfl]; omega)
  simp [isWsChar, h1, h2, h3, h4]

/-- A value head is neither whitespace nor a closing token. -/
theorem valHead_facts {c : Char} (h : valHead c) :
    isWsChar c = false ∧ c ≠ ']' ∧ c ≠ '\x7d' ∧ c ≠ ',' ∧ c ≠ ':' := by
  rcases h with rfl | rfl | rfl | rfl | rfl | rfl | rfl | hd
  · exact ⟨rfl, by decide, by decide, by decide, by decide⟩
  · exact ⟨rfl, by decide, by decide, by decide, by decide⟩
  · exact ⟨rfl, by decide, by decide, by decide, by decide⟩
  · exact ⟨rfl, by decide, by decide, by decide, by decide⟩
  · exact ⟨rfl, by decide, by decide, by decide, by decide⟩
  · exact ⟨rfl, by decide, by decide, by decide, by decide⟩
  · exact ⟨rfl, by decide, by decide, by decide, by decide⟩
  · exact digit_head_facts hd

/-- What a number head cannot be. -/
theorem numHead_facts {c : Char} (h : c = '-' ∨ isDigitChar c = true) :
    c ≠ 'n' ∧ c ≠ 't' ∧ c ≠ 'f' ∧ c ≠ '"' ∧ c ≠ '[' ∧ c ≠ '\x7b' ∧ isWsChar c = false := by
  rcases h with rfl | hd
  · exact ⟨by decide, by decide, by decide, by decide, by decide, by decide, rfl⟩
  · have hb : 48 ≤ c.toNat ∧ c.toNat ≤ 57 := by
      simpa [isDigitChar, Bool.and_eq_true, decide_eq_true_eq] using hd
    have hne : ∀ d : Char, c.toNat ≠ d.toNat → c ≠ d := fun d h hc => h (by rw [hc])
    exact ⟨hne _ (by rw [show ('n' : Char).toNat = 110 from rfl]; omega),
      hne _ (by rw [show ('t' : Char).toNat = 116 from rfl]; omega),
      hne _ (by rw [show ('f' : Char).toNat = 102 from rfl]; omega),
      hne _ (by rw [show ('"' : Char).toNat = 34 from rfl]; omega),
      hne _ (by rw [show ('[' : Char).toNat = 91 from rfl]; omega),
      hne _ (by rw [show ('\x7b' : Char).toNat = 123 from rfl]; omega),
      (digit_head_facts hd).1⟩

/-- The head of a rendered integer. -/
theorem intToChars_head (i : Int) :
    ∃ c cs, intToChars i = c :: cs ∧ (c = '-' ∨ isDigitChar c = true) := by
  cases i with
  | ofNat n =>
    cases hsp : natToChars n with
    | nil => exact absurd hsp (natToChars_ne_nil n)
    | cons c cs =>
      exact ⟨c, cs, hsp, Or.inr (natToChars_digits n c (by rw [hsp]; simp))⟩
  | negSucc m => exact ⟨'-', natToChars (m + 1), rfl, Or.inl rfl⟩

/-- The head of a serialized value. -/
theorem serJson_head (e : Json) : ∃ c cs, serJson e = c :: cs ∧ valHead c := by
  cases e with
  | null => exact ⟨'n', _, rfl, Or.inl rfl⟩
  | bool b =>
    cases b
    · exact ⟨'f', _, rfl, Or.inr (Or.inr (Or.inl rfl))⟩
    · exact ⟨'t', _, rfl, Or.inr (Or.inl rfl)⟩
  | num i =>
    obtain ⟨c, cs, hsp, hh⟩ := intToChars_head i
    refine ⟨c, cs, ?_, ?_⟩
    · rw [show serJson (.num i) = intToChars i from rfl, hsp]
    · rcases hh with rfl | hd
      · exact Or.inr (Or.inr (Or.inr (Or.inr (Or.inr (Or.inr (Or.inl rfl))))))
      · exact Or.inr (Or.inr (Or.inr (Or.inr (Or.inr (Or.inr (Or.inr hd))))))
  | str s => exact ⟨'"', _, rfl, Or.inr (Or.inr (Or.inr (Or.inl rfl)))⟩
  | arr es => exact ⟨'[', _, rfl, Or.inr (Or.inr (Or.inr (Or.inr (Or.inl rfl))))⟩
  | obj ms => exact ⟨'\x7b', _, rfl, Or.inr (Or.inr (Or.inr (Or.inr (Or.inr (Or.inl rfl)))))⟩

/-- Skipping whitespace stops at a non-whitespace head. -/
theorem skipWs_cons {c : Char} (l : List Char) (h : isWsChar c = false) :
    skipWs (c :: l) = c :: l := by
  rw [skipWs, if_neg (by simp [h])]

/-- Skipping whitespace over a serialized value is the identity. -/
theorem skipWs_serJson (e : Json) (t : List Char) : skipWs (serJson e ++ t) = serJson e ++ t := by
  obtain ⟨c, cs, hsp, hh⟩ := serJson_head e
  rw [hsp, List.cons_append, skipWs_cons _ (valHead_facts hh).1]

/-- The head of the serialization of a non-empty element list. -/
theorem serElems_head (e : Json) (es : List Json) :
    ∃ c cs, serElems (e :: es) = c :: cs ∧ valHead c := by
  obtain ⟨c, cs, hsp, hh⟩ := serJson_head e
  cases es with
  | nil => exact ⟨c, cs, by rw [serElems, hsp], hh⟩
  | cons e2 es =>
    refine ⟨c, cs ++ ',' :: ' ' :: serElems (e2 :: es), ?_, hh⟩
    rw [show serElems (e :: e2 :: es) = serJson e ++ ',' :: ' ' :: serElems (e2 :: es) from rfl,
      hsp]
    rfl

/-- Serialized values are never empty. -/
theorem serJson_length_pos (e : Json) : 1 ≤ (serJson e).length := by
  obtain ⟨c, cs, hsp, -⟩ := serJson_head e
  rw [hsp]
  simp

/-- A non-empty serialized member list begins with the opening quote of
its first key. -/
theorem serMembers_head (k : String) (v : Json) (ms : List (String × Json)) :
    ∃ t, serMembers ((k, v) :: ms) = '"' :: t := by
  cases ms with
  | nil =>
    refine ⟨(escapeChars k.toList ++ ['"']) ++ ':' :: ' ' :: serJson v, ?_⟩
    rw [show serMembers [(k, v)] = serStr k.toList ++ ':' :: ' ' :: serJson v from rfl,
      show serStr k.toList = '"' :: (escapeChars k.toList ++ ['"']) from rfl]
    rfl
  | cons m2 ms =>
    refine ⟨(escapeChars k.toList ++ ['"']) ++ ':' :: ' ' :: serJson v ++
      ',' :: ' ' :: serMembers (m2 :: ms), ?_⟩
    rw [show serMembers ((k, v) :: m2 :: ms) =
        serStr k.toList ++ ':' :: ' ' :: serJson v ++ ',' :: ' ' :: serMembers (m2 :: ms)
        from rfl,
      show serStr k.toList = '"' :: (escapeChars k.toList ++ ['"']) from rfl]
    simp

mutual

/-- A recursion budget sufficient for `parseValue` on the serialization. -/
def pfuel : Json → Nat
  | .arr es => 1 + pfuelElems es
  | .obj ms => 1 + pfuelMembers ms
  | _ => 1

/-- Budget for `parseElemsFrom` on a serialized element list. -/
def pfuelElems : List Json → Nat
  | [] => 0
  | [e] => 1 + pfuel e
  | e :: es => 1 + max (pfuel e) (pfuelElems es)

/-- Budget for `parseMembersFrom` on a serialized member list. -/
def pfuelMembers : List (String × Json) → Nat
  | [] => 0
  | [(_, v)] => 1 + pfuel v
  | (_, v) :: ms => 1 + max (pfuel v) (pfuelMembers ms)

end

mutual

theorem pfuel_le : ∀ (e : Json), pfuel e ≤ (serJson e).length + 1
  | .null => by simp [pfuel, serJson]
  | .bool b => by cases b <;> simp [pfuel, serJson]
  | .num i => by simp [pfuel]
  | .str s => by simp [pfuel]
  | .arr es => by
    have h := pfuelElems_le es
    rw [show serJson (.arr es) = '[' :: serElems es ++ [']'] from rfl]
    rw [show pfuel (.arr es) = 1 + pfuelElems es from rfl]
    simp only [List.length_cons, List.length_append, List.length_singleton]
    omega
  | .obj ms => by
    have h := pfuelMembers_le ms
    rw [show serJson (.obj ms) = '\x7b' :: serMembers ms ++ ['\x7d'] from rfl]
    rw [show pfuel (.obj ms) = 1 + pfuelMembers ms from rfl]
    simp only [List.length_cons, List.length_append, List.length_singleton]
    omega

theorem pfuelElems_le : ∀ (es : List Json), pfuelElems es ≤ (serElems es).length + 2
  | [] => by simp [pfuelElems]
  | [e] => by
    have h := pfuel_le e
    rw [show pfuelElems [e] = 1 + pfuel e from rfl, show serElems [e] = serJson e from rfl]
    omega
  | e :: e2 :: es => by
    have h1 := pfuel_le e
    have h2 := pfuelElems_le (e2 :: es)
    rw [show pfuelElems (e :: e2 :: es) = 1 + max (pfuel e) (pfuelElems (e2 :: es)) from rfl,
      show serElems (e :: e2 :: es) = serJson e ++ ',' :: ' ' :: serElems (e2 :: es) from rfl]
    simp only [List.length_append, List.length_cons]
    omega

theorem pfuelMembers_le : ∀ (ms : List (String × Json)), pfuelMembers ms ≤ (serMembers ms).length + 2
  | [] => by simp [pfuelMembers]
  | [(k, v)] => by
    have h := pfuel_le v
    rw [show pfuelMembers [(k, v)] = 1 + pfuel v from rfl,
      show serMembers [(k, v)] = serStr k.toList ++ ':' :: ' ' :: serJson v from rfl]
    simp only [List.length_append, List.length_cons]
    omega
  | (k, v) :: m2 :: ms => by
    have h1 := pfuel_le v
    have h2 := pfuelMembers_le (m2 :: ms)
    rw [show pfuelMembers ((k, v) :: m2 :: ms) = 1 + max (pfuel v) (pfuelMembers (m2 :: ms))
        from rfl,
      show serMembers ((k, v) :: m2 :: ms) =
        serStr k.toList ++ ':' :: ' ' :: serJson v ++ ',' :: ' ' :: serMembers (m2 :: ms)
        from rfl]
    simp only [List.length_append, List.length_cons]
    omega

end

/-- Writing a fresh key appends it. -/
theorem setKey_append (acc : List (String × Json)) (k : String) (v : Json)
    (h : k ∉ acc.map Prod.fst) : setKey acc k v = acc ++ [(k, v)] := by
  induction acc with
  | nil => rfl
  | cons p acc ih =>
    obtain ⟨k0, v0⟩ := p
    have hk0 : k0 ≠ k := by
      intro hk
      exact h (by simp [hk])
    rw [setKey, if_neg hk0, ih (fun hm => h (by simp [hm]))]
    rfl

/-- Building a dict from pairs with pairwise-distinct keys changes nothing
(the last-wins collapse never fires). -/
theorem dictFromPairs_go (ms : List (String × Json)) :
    ∀ acc : List (String × Json), Json.keysUnique (ms.map Prod.fst) = true →
      (∀ k, k ∈ ms.map Prod.fst → k ∉ acc.map Prod.fst) →
      ms.foldl (fun a kv => setKey a kv.1 kv.2) acc = acc ++ ms := by
  induction ms with
  | nil => intro acc _ _; simp
  | cons p ms ih =>
    intro acc hu hdisj
    obtain ⟨k, v⟩ := p
    have hu1 : (ms.map Prod.fst).contains k = false ∧ Json.keysUnique (ms.map Prod.fst) = true := by
      simpa [Json.keysUnique, Bool.and_eq_true] using hu
    have hknotin : k ∉ ms.map Prod.fst := by
      intro hm
      rw [show (ms.map Prod.fst).contains k = true from by simp [hm]] at hu1
      exact absurd hu1.1 (by simp)
    rw [List.foldl_cons]
    rw [show setKey acc (k, v).1 (k, v).2 = acc ++ [(k, v)] from
      setKey_append acc k v (hdisj k (by simp))]
    rw [ih (acc ++ [(k, v)]) hu1.2 ?_]
    · simp
    · intro k2 hk2
      simp only [List.map_append, List.mem_append] at *
      rintro (hin | hin)
      · exact hdisj k2 (by simp [hk2]) hin
      · simp at hin
        subst hin
        exact hknotin hk2

/-- `dict(pairs)` is the identity on pair lists with distinct keys. -/
theorem dictFromPairs_id (ms : List (String × Json))
    (hu : Json.keysUnique (ms.map Prod.fst) = true) : dictFromPairs ms = ms := by
  rw [dictFromPairs, dictFromPairs_go ms [] hu (by simp)]
  rfl

/-- The continuation after a serialized value inside a document: nothing,
or a separator/closer. -/
def valDelim : List Char → Prop
  | [] => True
  | c :: _ => c = ',' ∨ c = ']' ∨ c = '\x7d'

/-- A value delimiter is in particular a number delimiter. -/
theorem valDelim_numDelim {l : List Char} (h : valDelim l) : numDelim l := by
  cases l with
  | nil => trivial
  | cons c t =>
    rcases h with rfl | rfl | rfl
    · exact ⟨by decide, by decide, by decide, by decide⟩
    · exact ⟨by decide, by decide, by decide, by decide⟩
    · exact ⟨by decide, by decide, by decide, by decide⟩

mutual

/-- The parser reads back any well-formed serialized value, leaving a
delimited continuation untouched, given the budget `pfuel`. -/
theorem parseValue_ser : ∀ (e : Json) (fuel : Nat) (rest : List Char), Json.wf e = true →
    pfuel e ≤ fuel → valDelim rest → parseValue fuel (serJson e ++ rest) = some (e, rest)
  | .null, fuel, rest, _, hf, _ => by
    rw [show pfuel .null = 1 from rfl] at hf
    obtain ⟨f, rfl⟩ : ∃ f, fuel = f + 1 := ⟨fuel - 1, by omega⟩
    rfl
  | .bool true, fuel, rest, _, hf, _ => by
    rw [show pfuel (.bool true) = 1 from rfl] at hf
    obtain ⟨f, rfl⟩ : ∃ f, fuel = f + 1 := ⟨fuel - 1, by omega⟩
    rfl
  | .bool false, fuel, rest, _, hf, _ => by
    rw [show pfuel (.bool false) = 1 from rfl] at hf
    obtain ⟨f, rfl⟩ : ∃ f, fuel = f + 1 := ⟨fuel - 1, by omega⟩
    rfl
  | .num i, fuel, rest, _, hf, hr => by
    rw [show pfuel (.num i) = 1 from rfl] at hf
    obtain ⟨f, rfl⟩ : ∃ f, fuel = f + 1 := ⟨fuel - 1, by omega⟩
    obtain ⟨c, cs, hsp, hh⟩ := intToChars_head i
    obtain ⟨hn, ht, hfa, hq, hbk, hbr, hws⟩ := numHead_facts hh
    rw [show serJson (.num i) = intToChars i from rfl, hsp, List.cons_append]
    rw [parseValue]
    rw [skipWs_cons _ hws]
    simp only [if_neg hn, if_neg ht, if_neg hfa, if_neg hq, if_neg hbk, if_neg hbr]
    rw [← List.cons_append, ← hsp, parseNumber_enc i rest (valDelim_numDelim hr)]
  | .str s, fuel, rest, _, hf, _ => by
    rw [show pfuel (.str s) = 1 from rfl] at hf
    obtain ⟨f, rfl⟩ : ∃ f, fuel = f + 1 := ⟨fuel - 1, by omega⟩
    rw [show serJson (.str s) ++ rest =
      '"' :: (escapeChars s.toList ++ '"' :: rest) from by
        rw [show serJson (.str s) = ('"' :: escapeChars s.toList) ++ ['"'] from rfl]
        simp]
    rw [parseValue]
    rw [skipWs_cons _ (by decide)]
    simp only [if_neg (show ¬(('"') = 'n') from by decide),
      if_neg (show ¬(('"') = 't') from by decide),
      if_neg (show ¬(('"') = 'f') from by decide),
      ite_true]
    rw [parseStringBody_enc]
    rfl
  | .arr [], fuel, rest, _, hf, _ => by
    rw [show pfuel (.arr []) = 1 from rfl] at hf
    obtain ⟨f, rfl⟩ : ∃ f, fuel = f + 1 := ⟨fuel - 1, by omega⟩
    rfl
  | .arr (e :: es), fuel, rest, hw, hf, _ => by
    rw [show pfuel (.arr (e :: es)) = 1 + pfuelElems (e :: es) from rfl] at hf
    obtain ⟨f, rfl⟩ : ∃ f, fuel = f + 1 := ⟨fuel - 1, by omega⟩
    rw [show serJson (.arr (e :: es)) ++ rest =
      '[' :: (serElems (e :: es) ++ ']' :: rest) from by
        rw [show serJson (.arr (e :: es)) = ('[' :: serElems (e :: es)) ++ [']'] from rfl]
        simp]
    rw [parseValue]
    rw [skipWs_cons _ (by decide)]
    simp only [if_neg (show ¬(('[') = 'n') from by decide),
      if_neg (show ¬(('[') = 't') from by decide),
      if_neg (show ¬(('[') = 'f') from by decide),
      if_neg (show ¬(('[') = '"') from by decide),
      ite_true]
    obtain ⟨c0, t0, hsp0, hh0⟩ := serElems_head e es
    rw [hsp0, List.cons_append, skipWs_cons _ (valHead_facts hh0).1]
    have hel := parseElems_ser (e :: es) f rest (by simp) hw (by omega)
    rw [hsp0, List.cons_append] at hel
    split
    · next x r heq =>
      injection heq with h1 h2
      exact absurd h1 (valHead_facts hh0).2.1
    · next x hne =>
      rw [hel]
  | .obj [], fuel, rest, _, hf, _ => by
    rw [show pfuel (.obj []) = 1 from rfl] at hf
    obtain ⟨f, rfl⟩ : ∃ f, fuel = f + 1 := ⟨fuel - 1, by omega⟩
    rfl
  | .obj (m :: ms), fuel, rest, hw, hf, _ => by
    rw [show pfuel (.obj (m :: ms)) = 1 + pfuelMembers (m :: ms) from rfl] at hf
    obtain ⟨f, rfl⟩ : ∃ f, fuel = f + 1 := ⟨fuel - 1, by omega⟩
    have hw2 : Json.keysUnique ((m :: ms).map Prod.fst) = true ∧
        Json.wfMembers (m :: ms) = true := by
      simpa [Json.wf, Bool.and_eq_true] using hw
    rw [show serJson (.obj (m :: ms)) ++ rest =
      '\x7b' :: (serMembers (m :: ms) ++ '\x7d' :: rest) from by
        rw [show serJson (.obj (m :: ms)) =
          ('\x7b' :: serMembers (m :: ms)) ++ ['\x7d'] from rfl]
        simp]
    rw [parseValue]
    rw [skipWs_cons _ (by decide)]
    simp only [if_neg (show ¬(('\x7b') = 'n') from by decide),
      if_neg (show ¬(('\x7b') = 't') from by decide),
      if_neg (show ¬(('\x7b') = 'f') from by decide),
      if_neg (show ¬(('\x7b') = '"') from by decide),
      if_neg (show ¬(('\x7b') = '[') from by decide),
      ite_true]
    obtain ⟨k, v⟩ := m
    obtain ⟨t1, hsp1⟩ := serMembers_head k v ms
    rw [hsp1, List.cons_append, skipWs_cons _ (by decide)]
    have hms := parseMembers_ser ((k, v) :: ms) f rest (by simp) hw2.2 (by omega)
    rw [hsp1, List.cons_append] at hms
    split
    · next x r heq =>
      injection heq with h1 h2
      exact absurd h1 (by decide)
    · next x hne =>
      rw [hms]
      simp only [dictFromPairs_id ((k, v) :: ms) hw2.1]

/-- The element parser reads back any serialized non-empty element list,
consuming the closing bracket. -/
theorem parseElems_ser : ∀ (es : List Json) (fuel : Nat) (rest : List Char), es ≠ [] →
    Json.wfList es = true → pfuelElems es ≤ fuel →
    parseElemsFrom fuel (serElems es ++ ']' :: rest) = some (es, rest)
  | [], _, _, hne, _, _ => absurd rfl hne
  | [e], fuel, rest, _, hw, hf => by
    rw [show pfuelElems [e] = 1 + pfuel e from rfl] at hf
    obtain ⟨f, rfl⟩ : ∃ f, fuel = f + 1 := ⟨fuel - 1, by omega⟩
    have hwe : Json.wf e = true := by
      simpa [Json.wfList, Bool.and_eq_true] using hw
    rw [show serElems [e] = serJson e from rfl]
    rw [parseElemsFrom]
    rw [parseValue_ser e f (']' :: rest) hwe (by omega) (by exact Or.inr (Or.inl rfl))]
    simp only [skipWs_cons _ (show isWsChar ']' = false from rfl)]
  | e :: e2 :: es, fuel, rest, _, hw, hf => by
    rw [show pfuelElems (e :: e2 :: es) = 1 + max (pfuel e) (pfuelElems (e2 :: es)) from rfl] at hf
    obtain ⟨f, rfl⟩ : ∃ f, fuel = f + 1 := ⟨fuel - 1, by omega⟩
    have hwsp : Json.wf e = true ∧ Json.wfList (e2 :: es) = true := by
      simpa [Json.wfList, Bool.and_eq_true] using hw
    rw [show serElems (e :: e2 :: es) ++ ']' :: rest =
      serJson e ++ ',' :: ' ' :: (serElems (e2 :: es) ++ ']' :: rest) from by
        rw [show serElems (e :: e2 :: es) =
          serJson e ++ ',' :: ' ' :: serElems (e2 :: es) from rfl]
        simp]
    rw [parseElemsFrom]
    rw [parseValue_ser e f _ hwsp.1 (by omega) (by exact Or.inl rfl)]
    simp only [skipWs_cons _ (show isWsChar ',' = false from rfl)]
    rw [show skipWs (' ' :: (serElems (e2 :: es) ++ ']' :: rest)) =
        skipWs (serElems (e2 :: es) ++ ']' :: rest) from by rw [skipWs]; rfl]
    obtain ⟨c0, t0, hsp0, hh0⟩ := serElems_head e2 es
    rw [hsp0, List.cons_append, skipWs_cons _ (valHead_facts hh0).1, ← List.cons_append, ← hsp0]
    rw [parseElems_ser (e2 :: es) f rest (by simp) hwsp.2 (by omega)]

/-- The member parser reads back any serialized non-empty member list,
consuming the closing brace. -/
theorem parseMembers_ser : ∀ (ms : List (String × Json)) (fuel : Nat) (rest : List Char),
    ms ≠ [] → Json.wfMembers ms = true → pfuelMembers ms ≤ fuel →
    parseMembersFrom fuel (serMembers ms ++ '\x7d' :: rest) = some (ms, rest)
  | [], _, _, hne, _, _ => absurd rfl hne
  | [(k, v)], fuel, rest, _, hw, hf => by
    rw [show pfuelMembers [(k, v)] = 1 + pfuel v from rfl] at hf
    obtain ⟨f, rfl⟩ : ∃ f, fuel = f + 1 := ⟨fuel - 1, by omega⟩
    have hwv : Json.wf v = true := by
      simpa [Json.wfMembers, Bool.and_eq_true] using hw
    rw [show serMembers [(k, v)] ++ '\x7d' :: rest =
      '"' :: (escapeChars k.toList ++
        '"' :: (':' :: ' ' :: (serJson v ++ '\x7d' :: rest))) from by
        rw [show serMembers [(k, v)] = (('"' :: escapeChars k.toList) ++ ['"']) ++
          ':' :: ' ' :: serJson v from rfl]
        simp]
    rw [parseMembersFrom]
    rw [show escapeChars k.toList ++
        '"' :: (':' :: ' ' :: (serJson v ++ '\x7d' :: rest)) =
      escapeChars k.toList ++
        '"' :: (':' :: ' ' :: (serJson v ++ '\x7d' :: rest)) from rfl]
    rw [parseStringBody_enc k.toList (':' :: ' ' :: (serJson v ++ '\x7d' :: rest))]
    simp only [skipWs_cons _ (show isWsChar ':' = false from rfl)]
    rw [show skipWs (' ' :: (serJson v ++ '\x7d' :: rest)) =
        skipWs (serJson v ++ '\x7d' :: rest) from by rw [skipWs]; rfl]
    rw [skipWs_serJson v ('\x7d' :: rest)]
    rw [parseValue_ser v f _ hwv (by omega) (by exact Or.inr (Or.inr rfl))]
    simp only [skipWs_cons _ (show isWsChar '\x7d' = false from rfl)]
    rw [show String.mk k.toList = k from rfl]
  | (k, v) :: m2 :: ms, fuel, rest, _, hw, hf => by
    rw [show pfuelMembers ((k, v) :: m2 :: ms) = 1 + max (pfuel v) (pfuelMembers (m2 :: ms))
      from rfl] at hf
    obtain ⟨f, rfl⟩ : ∃ f, fuel = f + 1 := ⟨fuel - 1, by omega⟩
    have hwsp : Json.wf v = true ∧ Json.wfMembers (m2 :: ms) = true := by
      simpa [Json.wfMembers, Bool.and_eq_true] using hw
    rw [show serMembers ((k, v) :: m2 :: ms) ++ '\x7d' :: rest =
      '"' :: (escapeChars k.toList ++ '"' :: (':' :: ' ' ::
        (serJson v ++ ',' :: ' ' ::
          (serMembers (m2 :: ms) ++ '\x7d' :: rest)))) from by
        rw [show serMembers ((k, v) :: m2 :: ms) =
          ((('"' :: escapeChars k.toList) ++ ['"']) ++
            ':' :: ' ' :: serJson v) ++
            ',' :: ' ' :: serMembers (m2 :: ms) from rfl]
        simp]
    rw [parseMembersFrom]
    rw [parseStringBody_enc k.toList _]
    simp only [skipWs_cons _ (show isWsChar ':' = false from rfl)]
    rw [show skipWs (' ' :: (serJson v ++ ',' :: ' ' ::
        (serMembers (m2 :: ms) ++ '\x7d' :: rest))) =
      skipWs (serJson v ++ ',' :: ' ' ::
        (serMembers (m2 :: ms) ++ '\x7d' :: rest)) from by rw [skipWs]; rfl]
    rw [skipWs_serJson v _]
    rw [parseValue_ser v f _ hwsp.1 (by omega) (by exact Or.inl rfl)]
    simp only [skipWs_cons _ (show isWsChar ',' = false from rfl)]
    rw [show skipWs (' ' :: (serMembers (m2 :: ms) ++ '\x7d' :: rest)) =
        skipWs (serMembers (m2 :: ms) ++ '\x7d' :: rest) from by rw [skipWs]; rfl]
    obtain ⟨k2, v2⟩ := m2
    obtain ⟨t2, hsp2⟩ := serMembers_head k2 v2 ms
    rw [hsp2, List.cons_append, skipWs_cons _ (by decide), ← List.cons_append, ← hsp2]
    rw [parseMembers_ser ((k2, v2) :: ms) f rest (by simp) hwsp.2 (by omega)]
    rw [show String.mk k.toList = k from rfl]

end

/-- `json.loads` inverts `json.dumps` on values with unique object keys. -/
theorem json_loads_dumps (e : Json) (hw : Json.wf e = true) :
    json_loads (json_dumps e) = some e := by
  simp only [json_loads, json_dumps]
  rw [show (String.mk (serJson e)).toList = serJson e from rfl]
  have hfit : pfuel e ≤ 2 * (serJson e).length + 2 := by
    have := pfuel_le e
    omega
  have hp := parseValue_ser e (2 * (serJson e).length + 2) [] hw hfit trivial
  rw [List.append_nil] at hp
  rw [hp]
  rfl

/-- The 8-byte header occupies exactly the dropped prefix. -/
theorem drop_header (x y : Nat) (p : List Nat) :
    (Protocol.be4 x ++ Protocol.be4 y ++ p).drop 8 = p := by
  simp [Protocol.be4]

/-- C1. Frame codec round-trip: for every envelope `e` (a JSON value whose
objects have unique keys, as every Python dict has), parsing the payload
portion of `Protocol.pack e` — the bytes after the 8-byte header — with
`Protocol.parse_message` yields `e` again. -/
theorem C1_frame_roundtrip (e : Json) (hw : Json.wf e = true) :
    Protocol.parse_message ((Protocol.pack e).drop Protocol.HEADER_SIZE) = some e := by
  rw [show Protocol.HEADER_SIZE = 8 from rfl]
  rw [Protocol.pack]
  rw [drop_header]
  rw [Protocol.parse_message]
  rw [utf8Encode, utf8Decode_encodeChars]
  simp only [show String.mk (json_dumps e).toList = json_dumps e from rfl]
  exact json_loads_dumps e hw

/-- C1 witness: the round-trip at a concrete chat envelope. -/
theorem C1_frame_roundtrip_witness :
    Json.wf (Json.obj [("type", Json.str "chat_message"), ("target", Json.str "public"),
        ("content", Json.str "hi")]) = true ∧
      Protocol.parse_message ((Protocol.pack (Json.obj [("type", Json.str "chat_message"),
        ("target", Json.str "public"), ("content", Json.str "hi")])).drop Protocol.HEADER_SIZE) =
        some (Json.obj [("type", Json.str "chat_message"), ("target", Json.str "public"),
        ("content", Json.str "hi")]) :=
  ⟨rfl, C1_frame_roundtrip _ rfl⟩

/-! ## Circuit breaker — `CircuitBreaker` in `src/core/providers/retry.py`

States are the strings `"closed"`, `"open"`, `"half_open"` in the source;
`time.monotonic()` instants are explicit `ℚ` arguments.
-/

inductive CBState where
  | closed
  | opened
  | halfOpen
deriving Repr, DecidableEq

/-- The breaker's instance attributes. -/
structure CircuitBreaker where
  failureThreshold : Nat
  recoveryTimeout : ℚ
  halfOpenSuccessThreshold : Nat
  state : CBState
  failureCount : Nat
  successCount : Nat
  lastFailureTime : ℚ
deriving Repr, DecidableEq

/-- `CircuitBreaker.__init__`. -/
def CircuitBreaker.init (failureThreshold : Nat) (recoveryTimeout : ℚ)
    (halfOpenSuccessThreshold : Nat) : CircuitBreaker :=
  { failureThreshold, recoveryTimeout, halfOpenSuccessThreshold,
    state := .closed, failureCount := 0, successCount := 0, lastFailureTime := 0 }

/-- `CircuitBreaker.allow_request` at instant `now`. -/
def CircuitBreaker.allow_request (now : ℚ) (cb : CircuitBreaker) : Bool × CircuitBreaker :=
  if cb.state = .opened then
    if cb.recoveryTimeout ≤ now - cb.lastFailureTime then
      (true, { cb with state := .halfOpen, successCount := 0 })
    else (false, cb)
  else (true, cb)

/-- `CircuitBreaker.record_success`. -/
def CircuitBreaker.record_success (cb : CircuitBreaker) : CircuitBreaker :=
  if cb.state = .halfOpen then
    if cb.halfOpenSuccessThreshold ≤ cb.successCount + 1 then
      { cb with failureCount := 0, successCount := 0, state := .closed }
    else { cb with failureCount := 0, successCount := cb.successCount + 1 }
  else { cb with failureCount := 0, state := .closed }

/-- `CircuitBreaker.record_failure` at instant `now`: the failure count is
incremented and the timer set, and the breaker opens only when the new
count reaches `failure_threshold`. -/
def CircuitBreaker.record_failure (now : ℚ) (cb : CircuitBreaker) : CircuitBreaker :=
  if cb.failureThreshold ≤ cb.failureCount + 1 then
    { cb with failureCount := cb.failureCount + 1, lastFailureTime := now, state := .opened }
  else { cb with failureCount := cb.failureCount + 1, lastFailureTime := now }

/-! ## Retry — `retry_with_backoff` in `src/core/providers/retry.py`

One invocation of the decorated operation per attempt; an attempt either
returns a value or raises an exception, which is in the retryable tuple
or not. Exceptions carry an identifying `Nat`.
-/

/-- What one invocation of the wrapped operation does. -/
inductive CallOutcome (α : Type) where
  | ok (v : α)
  | exn (retryable : Bool) (eid : Nat)
deriving Repr, DecidableEq

/-- How the wrapper returns: a value, a `RetryError` carrying the cause of
the last attempt, a non-retryable exception propagated unchanged, or
`None` when the loop body never ran (`max_attempts < 1`). -/
inductive RetryOutcome (α : Type) where
  | ok (v : α)
  | retryError (lastEid : Nat)
  | raised (eid : Nat)
  | noneResult
deriving Repr, DecidableEq

/-- The `for attempt in range(1, max_attempts + 1)` loop, from a given
attempt number; returns the outcome and the list of `time.sleep` delays
performed, in order. -/
def retryGo {α : Type} (op : Nat → CallOutcome α) (maxAttempts : Nat)
    (baseDelay maxDelay expBase : ℚ) (attempt : Nat) : RetryOutcome α × List ℚ :=
  if _h : maxAttempts < attempt then (.noneResult, [])
  else
    match op attempt with
    | .ok v => (.ok v, [])
    | .exn true e =>
      if attempt = maxAttempts then (.retryError e, [])
      else
        let d := min maxDelay (baseDelay * expBase ^ (attempt - 1))
        let r := retryGo op maxAttempts baseDelay maxDelay expBase (attempt + 1)
        (r.1, d :: r.2)
    | .exn false e => (.raised e, [])
termination_by maxAttempts + 1 - attempt
decreasing_by omega

/-- `retry_with_backoff(...)` applied to an operation: run the attempt
loop from attempt 1. -/
def retry_with_backoff {α : Type} (op : Nat → CallOutcome α) (maxAttempts : Nat)
    (baseDelay maxDelay expBase : ℚ) : RetryOutcome α × List ℚ :=
  retryGo op maxAttempts baseDelay maxDelay expBase 1

/-- The attempt failed with an error in the retryable set. -/
def retryableFail {α : Type} (o : CallOutcome α) : Prop := ∃ e, o = .exn true e

/-- The identifier carried by a failed outcome. -/
def eidOf {α : Type} : CallOutcome α → Nat
  | .exn _ e => e
  | .ok _ => 0

/-! ## Guest reconnect loop — `NetworkManager._connect_guest_with_retries`

`src/core/network.py` lines 318–334. The loop state is the local `delay`
(starting at `_reconnect_delay_base`) and `first_attempt`; before every
attempt except the very first of an `initial=True` call it sleeps `delay`
and then doubles it, capped at `_reconnect_delay_max`. `outcomes` lists
the success of each `_connect_guest_once` call; the loop stops at the
first success. The returned list is the sleeps performed, in order.
`_connect_relay_with_retries` (lines 371–386) is the same loop. -/
def reconnectSleepsGo (maxDelay : ℚ) : ℚ → Bool → Bool → List Bool → List ℚ
  | _, _, _, [] => []
  | delay, first, initial, o :: os =>
    if first && initial then
      if o then [] else reconnectSleepsGo maxDelay delay false initial os
    else
      delay ::
        (if o then []
         else reconnectSleepsGo maxDelay (min (delay * 2) maxDelay) false initial os)

/-- The sleeps of one `_connect_guest_with_retries(initial)` call whose
connect attempts have the given outcomes. -/
def connectGuestSleeps (baseDelay maxDelay : ℚ) (initial : Bool) (outcomes : List Bool) :
    List ℚ :=
  reconnectSleepsGo maxDelay baseDelay true initial outcomes

/-- Modelled from the spec: the reconnect delay formula the specification
states for attempt number `attempt`, `min(max_delay, base_delay * 1.5 ^ attempt)`. -/
def specReconnectDelay (baseDelay maxDelay : ℚ) (attempt : Nat) : ℚ :=
  min maxDelay (baseDelay * (3 / 2) ^ attempt)

/-! ## Emotion normalization — `AIService.analyze_emotion`

`src/core/ai_service.py` lines 232–259, from the point where the backend
reply has been parsed into a label-to-weight mapping (`emotion_data`).
Weights (Python floats) are modelled by `ℚ`. -/

/-- `d[k] = v` on a score dict whose key is already present. -/
def updateScore : List (String × ℚ) → String → ℚ → List (String × ℚ)
  | [], _, _ => []
  | (k0, v0) :: rest, k, v =>
    if k0 = k then (k0, v) :: rest else (k0, v0) :: updateScore rest k v

/-- `default_emotions` updated with the recognized entries of the reply:
`default_emotions.update({k: float(v) for k, v in emotion_data.items() if
k in default_emotions})`. -/
def recognizedScores (m : List (String × ℚ)) : List (String × ℚ) :=
  m.foldl
    (fun acc kv =>
      if kv.1 = "neutral" ∨ kv.1 = "happy" ∨ kv.1 = "tense" ∨ kv.1 = "negative" then
        updateScore acc kv.1 kv.2
      else acc)
    [("neutral", 0), ("happy", 0), ("tense", 0), ("negative", 0)]

/-- `total = sum(default_emotions.values())`. -/
def totalRecognized (m : List (String × ℚ)) : ℚ :=
  ((recognizedScores m).map Prod.snd).sum

/-- The normalization core of `analyze_emotion`: renormalize when the
total is positive, else default to `{"neutral": 1.0}`. -/
def analyzeEmotionScores (m : List (String × ℚ)) : List (String × ℚ) :=
  if 0 < totalRecognized m then
    (recognizedScores m).map (fun kv => (kv.1, kv.2 / totalRecognized m))
  else [("neutral", 1)]

/-- The four emotion labels. -/
def emotionLabels : List String := ["neutral", "happy", "tense", "negative"]

/-- Modelled from the spec: default to `{neutral: 1.0}` exactly when the
total of recognized weights is zero, otherwise renormalize. -/
def specEmotionScores (m : List (String × ℚ)) : List (String × ℚ) :=
  if totalRecognized m = 0 then [("neutral", 1)]
  else (recognizedScores m).map (fun kv => (kv.1, kv.2 / totalRecognized m))

/-! ## Association-list dictionaries

Python dicts as insertion-ordered association lists: assignment replaces
in place or appends, deletion filters, lookup finds the (unique) key.
-/

/-- `d.get(k)`. -/
def alistGet {α β : Type} [BEq α] (l : List (α × β)) (k : α) : Option β :=
  (l.find? (fun kv => kv.1 == k)).map Prod.snd

/-- `d[k] = v`. -/
def alistSet {α β : Type} [BEq α] : List (α × β) → α → β → List (α × β)
  | [], k, v => [(k, v)]
  | (k0, v0) :: rest, k, v =>
    if k0 == k then (k0, v) :: rest else (k0, v0) :: alistSet rest k v

/-- `del d[k]` (no-op when absent, as used behind an `in` check). -/
def alistErase {α β : Type} [BEq α] (l : List (α × β)) (k : α) : List (α × β) :=
  l.filter (fun kv => !(kv.1 == k))

/-! ## Server core — `PetChatServer` in `src/core/server_core.py`

One handling thread per accepted connection; the shared registry
`self.clients` maps the `user_id` value taken from the `register`
envelope (any JSON value; Python `None` for a missing field is `Json.null`)
to the session record. Sockets are `Nat` handles; an outbound send is a
`(socket, envelope)` pair. `on_ai_request` callbacks are recorded as
`(user_id, envelope)` pairs; log/stats callbacks are not modelled.
-/

/-- `message.get(k)`: Python `None` — absent key or explicit JSON null —
is `Json.null`. -/
def jget (ms : List (String × Json)) (k : String) : Json :=
  (alistGet ms k).getD .null

/-- `message.get(k, default)`. -/
def jgetD (ms : List (String × Json)) (k : String) (d : Json) : Json :=
  (alistGet ms k).getD d

/-- Python truthiness of a JSON value. -/
def pyTruthy : Json → Bool
  | .null => false
  | .bool b => b
  | .num n => n != 0
  | .str s => s != ""
  | .arr es => !es.isEmpty
  | .obj ms => !ms.isEmpty

/-- One registry session: socket, `user_name`, `avatar`, peer address. -/
structure ClientInfo where
  sock : Nat
  name : Json
  avatar : Json
  addr : Nat
deriving Repr, DecidableEq

/-- The server's `self.clients` registry. -/
abbrev Registry := List (Json × ClientInfo)

/-- `PetChatServer._broadcast(message, exclude)`: one send per registry
entry whose key differs from `exclude` (Python `None` is `Json.null`). -/
def broadcast (r : Registry) (msg : Json) (exclude : Json) : List (Nat × Json) :=
  (r.filter (fun kv => !(kv.1 == exclude))).map (fun kv => (kv.2.sock, msg))

/-- `PetChatServer._handle_register`: insert/replace the session, notify
the others with `user_joined`, send `online_users` (excluding self) to
the registering socket; returns the new registry, the value the
connection loop stores into its `user_id` local, and the sends. -/
def handleRegister (clients : Registry) (sock addr : Nat) (ms : List (String × Json)) :
    Registry × Json × List (Nat × Json) :=
  let uid := jget ms "user_id"
  let name := jgetD ms "user_name" (.str "Unknown")
  let avatar := jgetD ms "avatar" (.str "")
  let clients1 := alistSet clients uid ⟨sock, name, avatar, addr⟩
  let joinMsg : Json := .obj [("type", .str "user_joined"), ("user_id", uid),
    ("user_name", name), ("avatar", avatar)]
  let users := (clients1.filter (fun kv => !(kv.1 == uid))).map
    (fun kv => Json.obj [("user_id", kv.1), ("user_name", kv.2.name), ("avatar", kv.2.avatar)])
  let onlineMsg : Json := .obj [("type", .str "online_users"), ("users", .arr users)]
  (clients1, uid, broadcast clients1 joinMsg uid ++ [(sock, onlineMsg)])

/-- `PetChatServer._handle_chat`: broadcast excluding the envelope's
`sender_id` when the target is `"public"`, else unicast to the session
registered under the target (silently dropped when offline). -/
def handleChat (clients : Registry) (ms : List (String × Json)) : List (Nat × Json) :=
  let target := jgetD ms "target" (.str "public")
  let sender := jget ms "sender_id"
  if target = .str "public" then broadcast clients (.obj ms) sender
  else
    match alistGet clients target with
    | some ci => [(ci.sock, .obj ms)]
    | none => []

/-- `PetChatServer._handle_disconnect`: delete the registry entry and
broadcast `user_left` to every remaining session (no exclusion — the
Python default `exclude=None` excludes only a `None`-keyed entry). -/
def handleDisconnect (clients : Registry) (uid : Json) : Registry × List (Nat × Json) :=
  let clients1 := alistErase clients uid
  (clients1, broadcast clients1 (.obj [("type", .str "user_left"), ("user_id", uid)]) .null)

/-- The connection handler's reaction to one decoded envelope: the new
registry, the new `user_id` local, the sends, and the `on_ai_request`
events. `none` models the uncaught exception raised when the decoded
payload is not a mapping (`message.get` fails), which aborts the loop. -/
structure StepResult where
  clients : Registry
  userId : Json
  sends : List (Nat × Json)
  aiEvents : List (Json × Json)
deriving Repr, DecidableEq

/-- The envelope dispatch of `PetChatServer._handle_client_connection`:
`register` (always), `chat_message` (always), `ai_analysis_request`
(only when `user_id` is truthy), `ping` → `pong`, `typing_status` →
broadcast excluding `user_id`, anything else ignored. -/
def handleMessage (clients : Registry) (selfSock addr : Nat) (userId : Json) (msg : Json) :
    Option StepResult :=
  match msg with
  | .obj ms =>
    let t := jget ms "type"
    if t = .str "register" then
      let r := handleRegister clients selfSock addr ms
      some ⟨r.1, r.2.1, r.2.2, []⟩
    else if t = .str "chat_message" then
      some ⟨clients, userId, handleChat clients ms, []⟩
    else if t = .str "ai_analysis_request" then
      some ⟨clients, userId, [], if pyTruthy userId then [(userId, .obj ms)] else []⟩
    else if t = .str "ping" then
      some ⟨clients, userId, [(selfSock, .obj [("type", .str "pong")])], []⟩
    else if t = .str "typing_status" then
      some ⟨clients, userId, broadcast clients (.obj ms) userId, []⟩
    else
      some ⟨clients, userId, [], []⟩
  | _ => none

/-- One received frame: the header's CRC field and the payload bytes. -/
structure Frame where
  crc : Nat
  payload : List Nat
deriving Repr, DecidableEq

/-- The per-connection read loop of `_handle_client_connection` over a
sequence of received frames: a CRC mismatch or undecodable payload skips
the frame and continues; an unhandled exception stops the loop. Returns
the registry, the `user_id` local, the sends and the AI events. -/
def serverLoop (clients : Registry) (selfSock addr : Nat) (userId : Json) :
    List Frame → Registry × Json × List (Nat × Json) × List (Json × Json)
  | [] => (clients, userId, [], [])
  | f :: fs =>
    if Protocol.verify_crc f.payload f.crc = false then
      serverLoop clients selfSock addr userId fs
    else
      match Protocol.parse_message f.payload with
      | none => serverLoop clients selfSock addr userId fs
      | some msg =>
        match handleMessage clients selfSock addr userId msg with
        | some r =>
          let rec2 := serverLoop r.clients selfSock addr r.userId fs
          (rec2.1, rec2.2.1, r.sends ++ rec2.2.2.1, r.aiEvents ++ rec2.2.2.2)
        | none => (clients, userId, [], [])

/-- The `finally` block of `_handle_client_connection`: disconnect
cleanup when `user_id` is truthy, then close the connection's own
socket. Returns the registry, the sends, and the closed sockets. -/
def connectionCleanup (clients : Registry) (sock : Nat) (userId : Json) :
    Registry × List (Nat × Json) × List Nat :=
  if pyTruthy userId then
    let r := handleDisconnect clients userId
    (r.1, r.2, [sock])
  else (clients, [], [sock])

/-! ## Relay server — `RelayServer` in `src/relay_server.py`

Rooms map a role (`"host"`/`"guest"`) to the occupying connection;
`self.clients` maps a connection to its metadata. Frames on the relay
leg are 4-byte-length-prefixed JSON with no CRC. The relay's own control
replies are modelled as `RelayCtl` values (the human-readable `message`
text, which embeds Python exception text, is not modelled); forwarded
traffic is raw bytes. `str()` of a non-string JSON value follows Python
except that `repr` of strings nested in containers is simplified to
single quotes without escaping (reachable only for container-valued
`room_id`/`role` fields).
-/

mutual

/-- Python `str()` of a JSON value. -/
def pyStr : Json → String
  | .null => "None"
  | .bool true => "True"
  | .bool false => "False"
  | .num i => String.mk (intToChars i)
  | .str s => s
  | .arr es => "[" ++ pyReprList es ++ "]"
  | .obj ms => "\x7b" ++ pyReprMembers ms ++ "\x7d"

/-- Python `repr()` of a JSON value (strings quoted, simplified). -/
def pyReprOne : Json → String
  | .null => "None"
  | .bool true => "True"
  | .bool false => "False"
  | .num i => String.mk (intToChars i)
  | .str s => "\x27" ++ s ++ "\x27"
  | .arr es => "[" ++ pyReprList es ++ "]"
  | .obj ms => "\x7b" ++ pyReprMembers ms ++ "\x7d"

/-- Comma-separated `repr`s of list elements. -/
def pyReprList : List Json → String
  | [] => ""
  | [e] => pyReprOne e
  | e :: es => pyReprOne e ++ ", " ++ pyReprList es

/-- Comma-separated `repr`s of dict items. -/
def pyReprMembers : List (String × Json) → String
  | [] => ""
  | [(k, v)] => "\x27" ++ k ++ "\x27: " ++ pyReprOne v
  | (k, v) :: ms => "\x27" ++ k ++ "\x27: " ++ pyReprOne v ++ ", " ++ pyReprMembers ms

end

/-- Metadata the relay keeps per registered connection. -/
structure RelayMeta where
  room : String
  role : String
  addr : Nat
  lastSeen : ℚ
deriving Repr, DecidableEq

/-- The relay's room table and client table. -/
structure RelayState where
  rooms : List (String × List (String × Nat))
  clients : List (Nat × RelayMeta)
deriving Repr, DecidableEq

/-- A control reply the relay sends itself: `relay_ack` (with the
occupancy counters read after registration) or `relay_error` (by code). -/
inductive RelayCtl where
  | ack (roomId role : String) (activeInRoom activeTotal : Nat)
  | relayError (code : String)
deriving Repr, DecidableEq

/-- `RelayServer._register_client`: create the room if absent (or
falsy-empty), reject when the slot holds a different live connection,
else claim the slot and record the metadata. Returns success and the new
state. -/
def registerClient (st : RelayState) (roomId role : String) (conn addr : Nat) (now : ℚ) :
    Bool × RelayState :=
  let roomsAndRoom : List (String × List (String × Nat)) × List (String × Nat) :=
    match alistGet st.rooms roomId with
    | some r => if r.isEmpty then (alistSet st.rooms roomId [], []) else (st.rooms, r)
    | none => (alistSet st.rooms roomId [], [])
  match alistGet roomsAndRoom.2 role with
  | some existing =>
    if existing ≠ conn then (false, { st with rooms := roomsAndRoom.1 })
    else
      (true, { rooms := alistSet roomsAndRoom.1 roomId (alistSet roomsAndRoom.2 role conn),
               clients := alistSet st.clients conn ⟨roomId, role, addr, now⟩ })
  | none =>
    (true, { rooms := alistSet roomsAndRoom.1 roomId (alistSet roomsAndRoom.2 role conn),
             clients := alistSet st.clients conn ⟨roomId, role, addr, now⟩ })

/-- `RelayServer._update_last_seen`. -/
def updateLastSeen (st : RelayState) (conn : Nat) (now : ℚ) : RelayState :=
  match alistGet st.clients conn with
  | some meta => { st with clients := alistSet st.clients conn { meta with lastSeen := now } }
  | none => st

/-- `RelayServer._get_target`: the occupant of the opposite role in the
same room, when this connection has registered coordinates. -/
def getTarget (st : RelayState) (roomId role : Option String) : Option Nat :=
  match roomId, role with
  | some rid, some r =>
    match alistGet st.rooms rid with
    | some room => alistGet room (if r = "host" then "guest" else "host")
    | none => none
  | _, _ => none

/-- `room_id = str(message.get("room_id") or "default")`. -/
def relayRoomIdOf (ms : List (String × Json)) : String :=
  if pyTruthy (jget ms "room_id") then pyStr (jget ms "room_id") else "default"

/-- `role = str(message.get("role") or "guest")`. -/
def relayRoleOf (ms : List (String × Json)) : String :=
  if pyTruthy (jget ms "role") then pyStr (jget ms "role") else "guest"

/-- What one frame does on the relay: new state, the connection-local
`room_id`/`role` variables, control sends to this connection, raw
forwards `(target, bytes)`, and whether the read loop ends here. -/
structure RelayFrameResult where
  st : RelayState
  roomId : Option String
  role : Option String
  sends : List (Nat × RelayCtl)
  forwards : List (Nat × List Nat)
  closed : Bool
deriving Repr, DecidableEq

/-- The relay's reaction to one decoded envelope (the body of
`_handle_client`) — see `relayHandleFrame` for the framing layer. -/
def relayHandleMsg (st : RelayState) (conn addr : Nat) (roomId role : Option String) (now : ℚ)
    (raw : List Nat) (msg : Json) : RelayFrameResult :=
  match msg with
  | .obj ms =>
    if jget ms "type" = .str "relay_register" then
      let rid2 := relayRoomIdOf ms
      let role2 := relayRoleOf ms
      if role2 ≠ "host" ∧ role2 ≠ "guest" then
        ⟨st, some rid2, some role2, [(conn, .relayError "INVALID_ROLE")], [], true⟩
      else if rid2 = "" then
        ⟨st, some rid2, some role2, [(conn, .relayError "INVALID_ROOM")], [], true⟩
      else
        match registerClient st rid2 role2 conn addr now with
        | (false, st1) =>
          ⟨st1, some rid2, some role2, [(conn, .relayError "REGISTER_FAILED")], [], true⟩
        | (true, st1) =>
          let room := (alistGet st1.rooms rid2).getD []
          ⟨st1, some rid2, some role2,
            [(conn, .ack rid2 role2 room.length st1.clients.length)], [], false⟩
    else
      let st1 := updateLastSeen st conn now
      match getTarget st1 roomId role with
      | some t => ⟨st1, roomId, role, [], [(t, raw)], false⟩
      | none => ⟨st1, roomId, role, [], [], false⟩
  | _ => ⟨st, roomId, role, [], [], true⟩

/-- One frame on the relay leg: 4-byte length prefix plus payload; an
undecodable payload draws `relay_error INVALID_JSON` and ends the loop. -/
def relayHandleFrame (st : RelayState) (conn addr : Nat) (roomId role : Option String) (now : ℚ)
    (payload : List Nat) : RelayFrameResult :=
  match Protocol.parse_message payload with
  | none => ⟨st, roomId, role, [(conn, .relayError "INVALID_JSON")], [], true⟩
  | some msg =>
    relayHandleMsg st conn addr roomId role now (Protocol.be4 payload.length ++ payload) msg

/-- The relay's per-connection read loop over received payloads; stops at
the first frame whose handling breaks the loop. -/
def relayLoop (st : RelayState) (conn addr : Nat) (roomId role : Option String) (now : ℚ) :
    List (List Nat) →
      RelayState × List (Nat × RelayCtl) × List (Nat × List Nat) × Option String × Option String
  | [] => (st, [], [], roomId, role)
  | p :: ps =>
    let r := relayHandleFrame st conn addr roomId role now p
    if r.closed then (r.st, r.sends, r.forwards, r.roomId, r.role)
    else
      let rec2 := relayLoop r.st conn addr r.roomId r.role now ps
      (rec2.1, r.sends ++ rec2.2.1, r.forwards ++ rec2.2.2.1, rec2.2.2.2.1, rec2.2.2.2.2)

/-- `RelayServer._cleanup_connection`: drop the client record and free the
room slot if this very connection holds it; the connection socket is
closed in every case. -/
def relayCleanup (st : RelayState) (conn : Nat) (roomId role : Option String) : RelayState :=
  match alistGet st.clients conn with
  | some meta =>
    let st1 : RelayState := { st with clients := alistErase st.clients conn }
    match alistGet st1.rooms meta.room with
    | some room =>
      if alistGet room meta.role = some conn then
        let room2 := alistErase room meta.role
        if room2.isEmpty then { st1 with rooms := alistErase st1.rooms meta.room }
        else { st1 with rooms := alistSet st1.rooms meta.room room2 }
      else st1
    | none => st1
  | none =>
    match roomId, role with
    | some rid, some r =>
      match alistGet st.rooms rid with
      | some room =>
        if alistGet room r = some conn then
          let room2 := alistErase room r
          if room2.isEmpty then { st with rooms := alistErase st.rooms rid }
          else { st with rooms := alistSet st.rooms rid room2 }
        else st
      | none => st
    | _, _ => st

/-! ## Claims: circuit breaker (C4) -/

/-- C4 counterexample. The claim says a single `record_failure()` in the
`HalfOpen` state always moves the breaker to `Open`. With
`failure_threshold = 2` and `half_open_success_threshold = 2`: two
failures open the breaker, `allow_request` after the 10-unit recovery
timeout half-opens it, one `record_success` (below the success
threshold) resets `failure_count` to 0 while staying `HalfOpen`, and the
next `record_failure` leaves the state `HalfOpen` — not `Open` — because
the new failure count 1 is below `failure_threshold`. -/
theorem C4_counterexample :
    ((CircuitBreaker.record_failure 13
      (CircuitBreaker.record_success
        ((CircuitBreaker.allow_request 12
          (CircuitBreaker.record_failure 2
            (CircuitBreaker.record_failure 1 (CircuitBreaker.init 2 10 2)))).2))).state)
      = CBState.halfOpen ∧ CBState.halfOpen ≠ CBState.opened := by
  constructor
  · norm_num [CircuitBreaker.init, CircuitBreaker.record_failure, CircuitBreaker.record_success,
      CircuitBreaker.allow_request]
  · intro h
    cases h

/-- C4 (amended). A `record_failure()` while `HalfOpen` always sets
`last_failure_time` to the failure instant, and moves the breaker to
`Open` exactly when the incremented failure count reaches
`failure_threshold` (so it does reopen whenever no `record_success` has
intervened since the breaker opened, but not in general). -/
theorem C4_halfopen_failure (cb : CircuitBreaker) (now : ℚ) (h : cb.state = CBState.halfOpen) :
    (cb.record_failure now).lastFailureTime = now ∧
      ((cb.record_failure now).state = CBState.opened ↔
        cb.failureThreshold ≤ cb.failureCount + 1) := by
  unfold CircuitBreaker.record_failure
  split_ifs with hth
  · exact ⟨rfl, by simp [hth]⟩
  · refine ⟨rfl, ?_⟩
    rw [h]
    simp only [hth, iff_false]
    intro hc
    cases hc

/-- A concrete half-open breaker. -/
def cbHalfOpenSample : CircuitBreaker := ⟨2, 10, 1, .halfOpen, 2, 0, 0⟩

/-- C4 witness: the amended statement at a concrete half-open breaker. -/
theorem C4_halfopen_failure_witness :
    cbHalfOpenSample.state = CBState.halfOpen ∧
      ((cbHalfOpenSample.record_failure 5).lastFailureTime = 5 ∧
        ((cbHalfOpenSample.record_failure 5).state = CBState.opened ↔ 2 ≤ 2 + 1)) :=
  ⟨rfl, C4_halfopen_failure cbHalfOpenSample 5 rfl⟩

/-! ## Claims: reconnect backoff (C6) -/

/-- One doubling step under the cap commutes with later scaling. -/
theorem min_doubling {a m c : ℚ} (h0 : 0 ≤ m) (hc : 1 ≤ c) :
    min (min a m * c) m = min (a * c) m := by
  rcases le_total a m with hle | hle
  · rw [min_eq_left hle]
  · rw [min_eq_right hle]
    have hmc : m ≤ m * c := le_mul_of_one_le_right h0 hc
    have hac : m ≤ a * c := le_trans hmc (mul_le_mul_of_nonneg_right hle (by linarith))
    rw [min_eq_right hmc, min_eq_right hac]

/-- In a post-loss run (`initial = false`) where the first `n` connect
attempts fail, the loop sleeps, then doubles the delay under the cap,
before every attempt. -/
theorem reconnectSleepsGo_allfail (maxD : ℚ) :
    ∀ (n : Nat) (d : ℚ) (first : Bool), 0 ≤ d → d ≤ maxD →
      reconnectSleepsGo maxD d first false (List.replicate n false) =
        (List.range n).map (fun k => min (d * 2 ^ k) maxD) := by
  intro n
  induction n with
  | zero => intro d first _ _; rfl
  | succ n ih =>
    intro d first hd0 hdm
    have h0m : (0 : ℚ) ≤ maxD := le_trans hd0 hdm
    rw [List.replicate_succ, reconnectSleepsGo]
    rw [show (first && false) = false from by simp]
    simp only [Bool.false_eq_true, if_false]
    rw [ih (min (d * 2) maxD) false (le_min (by linarith) h0m) (min_le_right _ _)]
    rw [List.range_succ_eq_map, List.map_cons, List.map_map]
    rw [pow_zero, mul_one, min_eq_left hdm]
    congr 1
    apply List.map_congr_left
    intro k _
    simp only [Function.comp_apply]
    rw [min_doubling h0m (one_le_pow₀ (by norm_num))]
    congr 1
    rw [pow_succ]
    ring

/-- C6 (amended). After a connection loss (`initial = false`), while every
attempt fails, the wait before reconnect attempt number `k` (0-indexed)
is `min(base_delay * 2 ^ k, max_delay)` — the factor is 2, not the 1.5
the specification states — and each reconnection sequence restarts from
`base_delay` (the delay is a local of `_connect_guest_with_retries`). -/
theorem C6_reconnect_backoff (baseDelay maxD : ℚ) (h0 : 0 ≤ baseDelay) (h1 : baseDelay ≤ maxD)
    (n : Nat) :
    connectGuestSleeps baseDelay maxD false (List.replicate n false) =
      (List.range n).map (fun k => min (baseDelay * 2 ^ k) maxD) :=
  reconnectSleepsGo_allfail maxD n baseDelay true h0 h1

/-- C6 witness: two failing attempts with the source defaults
`base = 1.0`, `max = 30.0` sleep 1 then 2. -/
theorem C6_reconnect_backoff_witness :
    connectGuestSleeps 1 30 false (List.replicate 2 false) = [1, 2] := by
  rw [C6_reconnect_backoff 1 30 (by norm_num) (by norm_num) 2]
  norm_num [List.range_succ]

/-- C6 counterexample. The claim predicts the wait before attempt 1 to be
`min(30, 1 * 1.5 ^ 1) = 3/2`; the loop actually waits `2` (it doubles). -/
theorem C6_counterexample :
    connectGuestSleeps 1 30 false [false, false] = [1, 2] ∧
      specReconnectDelay 1 30 1 = 3 / 2 ∧ (2 : ℚ) ≠ 3 / 2 := by
  refine ⟨?_, ?_, by norm_num⟩
  · norm_num [connectGuestSleeps, reconnectSleepsGo]
  · norm_num [specReconnectDelay]

/-! ## Claims: emotion normalization (C7) -/

/-- `updateScore` never changes the key list. -/
theorem updateScore_keys (l : List (String × ℚ)) (k : String) (v : ℚ) :
    (updateScore l k v).map Prod.fst = l.map Prod.fst := by
  induction l with
  | nil => rfl
  | cons p l ih =>
    obtain ⟨k0, v0⟩ := p
    rw [updateScore]
    split_ifs with hk
    · rfl
    · simp [ih]

/-- The recognized-score table always carries exactly the four labels. -/
theorem recognizedScores_keys (m : List (String × ℚ)) :
    (recognizedScores m).map Prod.fst = emotionLabels := by
  rw [recognizedScores, emotionLabels]
  have hgo : ∀ (l : List (String × ℚ)) (acc : List (String × ℚ)),
      ((l.foldl
        (fun acc kv =>
          if kv.1 = "neutral" ∨ kv.1 = "happy" ∨ kv.1 = "tense" ∨ kv.1 = "negative" then
            updateScore acc kv.1 kv.2
          else acc) acc).map Prod.fst) = acc.map Prod.fst := by
    intro l
    induction l with
    | nil => intro acc; rfl
    | cons kv l ih =>
      intro acc
      rw [List.foldl_cons]
      split_ifs with hl
      · rw [ih, updateScore_keys]
      · rw [ih]
  rw [hgo]
  rfl

/-- Scaling all values scales the value sum. -/
theorem sum_map_div (l : List (String × ℚ)) (t : ℚ) :
    ((l.map (fun kv => (kv.1, kv.2 / t))).map Prod.snd).sum = (l.map Prod.snd).sum / t := by
  induction l with
  | nil => simp
  | cons p l ih =>
    simp only [List.map_cons, List.sum_cons, add_div, ← ih]

/-- C7 counterexample. For the backend reply `{"happy": -1.0}` the total
of recognized weights is `-1`, not zero, so the claim demands the
renormalized table; the code instead falls back to `{"neutral": 1.0}`
because it only renormalizes a strictly positive total. -/
theorem C7_counterexample :
    analyzeEmotionScores [("happy", -1)] = [("neutral", 1)] ∧
      specEmotionScores [("happy", -1)] ≠ [("neutral", 1)] := by
  constructor
  · simp +decide [analyzeEmotionScores, totalRecognized, recognizedScores, updateScore]
  · simp +decide [specEmotionScores, totalRecognized, recognizedScores, updateScore]

/-- C7 (amended). `analyze_emotion` drops unrecognized labels (every
entry of the result bears one of the four labels), the returned weights
always sum to 1, and the table is the renormalized recognized weights
exactly when their total is strictly positive — a non-positive total
(zero or negative) falls back to `{"neutral": 1.0}`. -/
theorem C7_emotion_normalization (m : List (String × ℚ)) :
    (∀ kv ∈ analyzeEmotionScores m, kv.1 ∈ emotionLabels) ∧
      ((analyzeEmotionScores m).map Prod.snd).sum = 1 ∧
      (totalRecognized m ≤ 0 → analyzeEmotionScores m = [("neutral", 1)]) ∧
      (0 < totalRecognized m →
        analyzeEmotionScores m =
          (recognizedScores m).map (fun kv => (kv.1, kv.2 / totalRecognized m))) := by
  refine ⟨?_, ?_, ?_, ?_⟩
  · intro kv hkv
    rw [analyzeEmotionScores] at hkv
    split_ifs at hkv with ht
    · have : kv.1 ∈ (recognizedScores m).map Prod.fst := by
        rcases List.mem_map.mp hkv with ⟨p, hp, rfl⟩
        exact List.mem_map.mpr ⟨p, hp, rfl⟩
      rw [recognizedScores_keys] at this
      exact this
    · rw [List.mem_singleton] at hkv
      subst hkv
      rw [emotionLabels]
      simp
  · rw [analyzeEmotionScores]
    split_ifs with ht
    · rw [sum_map_div, ← totalRecognized, div_self (ne_of_gt ht)]
    · simp
  · intro ht
    rw [analyzeEmotionScores, if_neg (by linarith)]
  · intro ht
    rw [analyzeEmotionScores, if_pos ht]

/-- C7 witness: the amended statement at the reply `{"happy": 1, "tense": 3}`. -/
theorem C7_emotion_normalization_witness :
    ((analyzeEmotionScores [("happy", 1), ("tense", 3)]).map Prod.snd).sum = 1 ∧
      (0 < totalRecognized [("happy", 1), ("tense", 3)] →
        analyzeEmotionScores [("happy", 1), ("tense", 3)] =
          (recognizedScores [("happy", 1), ("tense", 3)]).map
            (fun kv => (kv.1, kv.2 / totalRecognized [("happy", 1), ("tense", 3)]))) :=
  ⟨(C7_emotion_normalization _).2.1, (C7_emotion_normalization _).2.2.2⟩

/-! ## Association-list lemmas -/

/-- Assignment makes the key readable. -/
theorem alistGet_alistSet_self {α β : Type} [BEq α] [LawfulBEq α]
    (l : List (α × β)) (k : α) (v : β) : alistGet (alistSet l k v) k = some v := by
  induction l with
  | nil => simp [alistSet, alistGet]
  | cons p l ih =>
    obtain ⟨k0, v0⟩ := p
    rw [alistSet]
    split_ifs with hk
    · simp [alistGet, List.find?_cons_of_pos, hk]
    · rw [alistGet, List.find?_cons_of_neg _ (by simpa using hk)]
      exact ih

/-- Deletion makes the key unreadable. -/
theorem alistGet_alistErase_self {α β : Type} [BEq α] [LawfulBEq α]
    (l : List (α × β)) (k : α) : alistGet (alistErase l k) k = none := by
  induction l with
  | nil => rfl
  | cons p l ih =>
    obtain ⟨k0, v0⟩ := p
    rw [alistErase, List.filter_cons]
    split_ifs with hk
    · rw [alistGet, List.find?_cons_of_neg _ (by simpa using hk)]
      exact ih
    · exact ih

/-! ## Claims: pre-registration handling (C2) -/

/-- C2 counterexample. The claim says any non-`register` envelope received
before registration is ignored (no registry change, no outbound
message). A `ping` received on an unregistered connection (empty
registry, `user_id` still `None`) is answered with a `pong` — an
outbound message. -/
theorem C2_counterexample :
    handleMessage [] 7 0 Json.null (Json.obj [("type", Json.str "ping")]) =
      some ⟨[], Json.null, [(7, Json.obj [("type", Json.str "pong")])], []⟩ ∧
      ([(7, Json.obj [("type", Json.str "pong")])] : List (Nat × Json)) ≠ [] := by
  exact ⟨by decide, by decide⟩

/-- C2 (amended). Before registration (`user_id` still `None`), a
non-`register` envelope never changes the registry, never changes
`user_id`, and never reaches the AI callback; but only envelopes whose
type is none of `chat_message`, `ping`, `typing_status` are fully
ignored — those three are processed as usual and may produce outbound
messages. -/
theorem C2_preregistration (clients : Registry) (selfSock addr : Nat)
    (ms : List (String × Json)) (r : StepResult)
    (hnoreg : jget ms "type" ≠ Json.str "register")
    (h : handleMessage clients selfSock addr Json.null (Json.obj ms) = some r) :
    r.clients = clients ∧ r.userId = Json.null ∧ r.aiEvents = [] ∧
      (jget ms "type" ≠ Json.str "chat_message" → jget ms "type" ≠ Json.str "ping" →
        jget ms "type" ≠ Json.str "typing_status" → r.sends = []) := by
  simp only [handleMessage] at h
  split_ifs at h with h1 h2 h3 htru h4 h5
  · exact absurd h1 hnoreg
  · injection h with h
    subst h
    exact ⟨rfl, rfl, rfl, fun hc _ _ => absurd h2 hc⟩
  · exact absurd htru (by decide)
  · injection h with h
    subst h
    exact ⟨rfl, rfl, rfl, fun _ _ _ => rfl⟩
  · injection h with h
    subst h
    exact ⟨rfl, rfl, rfl, fun _ hp _ => absurd h4 hp⟩
  · injection h with h
    subst h
    exact ⟨rfl, rfl, rfl, fun _ _ ht => absurd h5 ht⟩
  · injection h with h
    subst h
    exact ⟨rfl, rfl, rfl, fun _ _ _ => rfl⟩

/-- C2 witness: an `ai_analysis_request` on an unregistered connection is
fully ignored. -/
theorem C2_preregistration_witness :
    (⟨[], Json.null, [], []⟩ : StepResult).clients = ([] : Registry) ∧
      (⟨[], Json.null, [], []⟩ : StepResult).userId = Json.null ∧
      (⟨[], Json.null, [], []⟩ : StepResult).aiEvents = [] ∧
      (jget [("type", Json.str "ai_analysis_request")] "type" ≠ Json.str "chat_message" →
        jget [("type", Json.str "ai_analysis_request")] "type" ≠ Json.str "ping" →
        jget [("type", Json.str "ai_analysis_request")] "type" ≠ Json.str "typing_status" →
        (⟨[], Json.null, [], []⟩ : StepResult).sends = []) :=
  C2_preregistration [] 7 0 [("type", Json.str "ai_analysis_request")] ⟨[], Json.null, [], []⟩
    (by decide) (by decide)

/-! ## Claims: broadcast exclusion (C8) -/

/-- C8. A public `chat_message` whose `sender_id` names registered
session `S` is delivered once to every other registered session's
socket, and every delivery originates from a session other than `S` —
nothing is sent back through `S`. -/
theorem C8_broadcast_exclusion (clients : Registry) (ms : List (String × Json)) (S : Json)
    (htarget : jgetD ms "target" (Json.str "public") = Json.str "public")
    (hsender : jget ms "sender_id" = S)
    (_hreg : (alistGet clients S).isSome = true) :
    (∀ u ci, (u, ci) ∈ clients → u ≠ S → (ci.sock, Json.obj ms) ∈ handleChat clients ms) ∧
      (∀ p ∈ handleChat clients ms,
        ∃ u ci, (u, ci) ∈ clients ∧ u ≠ S ∧ p = (ci.sock, Json.obj ms)) := by
  have hchat : handleChat clients ms = broadcast clients (Json.obj ms) S := by
    rw [handleChat, htarget, hsender, if_pos rfl]
  rw [hchat]
  constructor
  · intro u ci hmem hne
    rw [broadcast]
    apply List.mem_map.mpr
    refine ⟨(u, ci), List.mem_filter.mpr ⟨hmem, ?_⟩, rfl⟩
    simp [hne]
  · intro p hp
    rw [broadcast] at hp
    rcases List.mem_map.mp hp with ⟨kv, hkv, rfl⟩
    rcases List.mem_filter.mp hkv with ⟨hmem, hneq⟩
    exact ⟨kv.1, kv.2, hmem, by simpa using hneq, rfl⟩

/-- C8 witness: with alice and bob registered and alice sending publicly,
bob's socket receives the message, and every delivery avoids alice. -/
theorem C8_broadcast_exclusion_witness :
    ((2 : Nat), Json.obj [("type", Json.str "chat_message"), ("target", Json.str "public"),
        ("sender_id", Json.str "alice")]) ∈
      handleChat [(Json.str "alice", ⟨1, Json.null, Json.null, 0⟩),
        (Json.str "bob", ⟨2, Json.null, Json.null, 0⟩)]
        [("type", Json.str "chat_message"), ("target", Json.str "public"),
          ("sender_id", Json.str "alice")] :=
  (C8_broadcast_exclusion
    [(Json.str "alice", ⟨1, Json.null, Json.null, 0⟩),
      (Json.str "bob", ⟨2, Json.null, Json.null, 0⟩)]
    [("type", Json.str "chat_message"), ("target", Json.str "public"),
      ("sender_id", Json.str "alice")]
    (Json.str "alice") (by decide) (by decide) (by decide)).1
    (Json.str "bob") ⟨2, Json.null, Json.null, 0⟩ (by decide) (by decide)

/-! ## Claims: superseded-connection cleanup (C10) -/

/-- C10. If user `u` registers on connection A (socket `sockA`), then
registers again on connection B, the registry routes `u` to B; when A's
read loop then ends, the `finally` cleanup deletes the registry entry
for `u` — the one pointing at B — and broadcasts `user_left{u}` to the
remaining sessions, closing only A's socket: B stays connected but can
no longer be routed to. -/
theorem C10_superseded_cleanup (st0 : Registry) (sockA sockB addrA addrB : Nat)
    (msA msB : List (String × Json)) (u : Json)
    (hu : pyTruthy u = true) (huA : jget msA "user_id" = u) (huB : jget msB "user_id" = u)
    (hAB : sockA ≠ sockB) :
    alistGet (handleRegister (handleRegister st0 sockA addrA msA).1 sockB addrB msB).1 u =
      some ⟨sockB, jgetD msB "user_name" (Json.str "Unknown"),
        jgetD msB "avatar" (Json.str ""), addrB⟩ ∧
    alistGet (connectionCleanup (handleRegister (handleRegister st0 sockA addrA msA).1
      sockB addrB msB).1 sockA (handleRegister st0 sockA addrA msA).2.1).1 u = none ∧
    (connectionCleanup (handleRegister (handleRegister st0 sockA addrA msA).1
      sockB addrB msB).1 sockA (handleRegister st0 sockA addrA msA).2.1).2.1 =
      broadcast (connectionCleanup (handleRegister (handleRegister st0 sockA addrA msA).1
        sockB addrB msB).1 sockA (handleRegister st0 sockA addrA msA).2.1).1
        (Json.obj [("type", Json.str "user_left"), ("user_id", u)]) Json.null ∧
    (connectionCleanup (handleRegister (handleRegister st0 sockA addrA msA).1
      sockB addrB msB).1 sockA (handleRegister st0 sockA addrA msA).2.1).2.2 = [sockA] ∧
    sockB ∉ (connectionCleanup (handleRegister (handleRegister st0 sockA addrA msA).1
      sockB addrB msB).1 sockA (handleRegister st0 sockA addrA msA).2.1).2.2 := by
  have huidA : (handleRegister st0 sockA addrA msA).2.1 = u := by
    rw [handleRegister]
    exact huA
  have hreg2 : (handleRegister (handleRegister st0 sockA addrA msA).1 sockB addrB msB).1 =
      alistSet (handleRegister st0 sockA addrA msA).1 u
        ⟨sockB, jgetD msB "user_name" (Json.str "Unknown"),
          jgetD msB "avatar" (Json.str ""), addrB⟩ := by
    conv => lhs; rw [handleRegister]
    rw [huB]
  have hclean : connectionCleanup (handleRegister (handleRegister st0 sockA addrA msA).1
      sockB addrB msB).1 sockA (handleRegister st0 sockA addrA msA).2.1 =
      (alistErase (handleRegister (handleRegister st0 sockA addrA msA).1 sockB addrB msB).1 u,
        broadcast (alistErase (handleRegister (handleRegister st0 sockA addrA msA).1
          sockB addrB msB).1 u)
          (Json.obj [("type", Json.str "user_left"), ("user_id", u)]) Json.null, [sockA]) := by
    rw [huidA, connectionCleanup, if_pos hu, handleDisconnect]
  refine ⟨?_, ?_, ?_, ?_, ?_⟩
  · rw [hreg2]
    exact alistGet_alistSet_self _ _ _
  · rw [hclean]
    exact alistGet_alistErase_self _ _
  · rw [hclean]
  · rw [hclean]
  · rw [hclean]
    simp [Ne.symm hAB]

/-- C10 witness: the scenario with concrete users and sockets. -/
theorem C10_superseded_cleanup_witness :
    alistGet (connectionCleanup (handleRegister (handleRegister []
      1 0 [("user_id", Json.str "u")]).1 2 0 [("user_id", Json.str "u")]).1 1
      (handleRegister ([] : Registry) 1 0 [("user_id", Json.str "u")]).2.1).1
      (Json.str "u") = none :=
  (C10_superseded_cleanup [] 1 2 0 0 [("user_id", Json.str "u")] [("user_id", Json.str "u")]
    (Json.str "u") (by decide) (by decide) (by decide) (by decide)).2.1

/-! ## Claims: integrity-error handling (C3) -/

/-- C3 counterexample. The claim says an invalid-JSON payload is dropped
with the connection staying alive in both read loops. On the relay, the
payload `0x7b` (a lone opening brace, not valid JSON) draws a
`relay_error INVALID_JSON` reply and ends the read loop — the relay
connection does not stay alive. -/
theorem C3_counterexample :
    Protocol.parse_message [0x7b] = none ∧
      (relayHandleFrame ⟨[], []⟩ 7 0 none none 0 [0x7b]).closed = true := by
  exact ⟨rfl, rfl⟩

/-- C3 (amended). Integrity errors drop the offending frame, but only the
chat server keeps the connection alive: there, a frame with a CRC
mismatch, or one whose payload is not valid JSON, is skipped and the
loop continues unchanged over the remaining frames; on the relay, an
invalid-JSON payload draws a `relay_error INVALID_JSON` reply to the
sender and ends that connection's read loop, leaving the relay state
untouched and the remaining frames unprocessed. -/
theorem C3_integrity_errors (clients : Registry) (selfSock addr : Nat) (userId : Json)
    (f g : Frame) (fs : List Frame) (st : RelayState) (conn raddr : Nat)
    (roomId role : Option String) (now : ℚ) (p : List Nat) (ps : List (List Nat))
    (hcrc : Protocol.verify_crc f.payload f.crc = false)
    (hgbad : Protocol.parse_message g.payload = none)
    (hbad : Protocol.parse_message p = none) :
    serverLoop clients selfSock addr userId (f :: fs) =
      serverLoop clients selfSock addr userId fs ∧
    serverLoop clients selfSock addr userId (g :: fs) =
      serverLoop clients selfSock addr userId fs ∧
    relayLoop st conn raddr roomId role now (p :: ps) =
      (st, [(conn, RelayCtl.relayError "INVALID_JSON")], [], roomId, role) := by
  have hfr : relayHandleFrame st conn raddr roomId role now p =
      ⟨st, roomId, role, [(conn, RelayCtl.relayError "INVALID_JSON")], [], true⟩ := by
    rw [relayHandleFrame]
    simp only [hbad]
  refine ⟨?_, ?_, ?_⟩
  · rw [serverLoop, if_pos hcrc]
  · rw [serverLoop]
    split_ifs with h
    · rfl
    · simp only [hgbad]
  · rw [relayLoop]
    simp only [hfr]
    rw [if_pos trivial]

/-- C3 witness: a frame with a wrong CRC, a frame whose payload is the
single byte `0x7b`, and that same payload on the relay. -/
theorem C3_integrity_errors_witness :
    serverLoop [] 7 0 Json.null [⟨1, []⟩] = serverLoop [] 7 0 Json.null [] ∧
    serverLoop [] 7 0 Json.null [⟨Protocol.crc32 [0x7b], [0x7b]⟩] =
      serverLoop [] 7 0 Json.null [] ∧
    relayLoop ⟨[], []⟩ 9 0 none none 0 [[0x7b]] =
      (⟨[], []⟩, [(9, RelayCtl.relayError "INVALID_JSON")], [], none, none) :=
  C3_integrity_errors [] 7 0 Json.null ⟨1, []⟩ ⟨Protocol.crc32 [0x7b], [0x7b]⟩ []
    ⟨[], []⟩ 9 0 none none 0 [0x7b] [] (by decide) rfl rfl

/-! ## Claims: relay role exclusivity (C9) -/

/-- C9. A `relay_register` for a `(room_id, role)` slot held by a
different connection is rejected: the relay replies `relay_error
REGISTER_FAILED` to the new connection, ends its read loop, and changes
no state; the subsequent cleanup of the new connection (which never got
a client record) leaves the state unchanged, so the original occupant
keeps the slot. -/
theorem C9_role_exclusivity (st : RelayState) (rid rl : String) (room : List (String × Nat))
    (c0 conn addr : Nat) (now : ℚ) (ms : List (String × Json)) (raw : List Nat)
    (htype : jget ms "type" = Json.str "relay_register")
    (hrid : relayRoomIdOf ms = rid) (hrole : relayRoleOf ms = rl)
    (hvalid : rl = "host" ∨ rl = "guest") (hner : rid ≠ "")
    (hroom : alistGet st.rooms rid = some room) (hnonempty : room.isEmpty = false)
    (hocc : alistGet room rl = some c0) (hc0 : c0 ≠ conn)
    (hnoclient : alistGet st.clients conn = none) :
    relayHandleMsg st conn addr none none now raw (Json.obj ms) =
      ⟨st, some rid, some rl, [(conn, RelayCtl.relayError "REGISTER_FAILED")], [], true⟩ ∧
    relayCleanup st conn (some rid) (some rl) = st ∧
    alistGet ((alistGet (relayCleanup st conn (some rid) (some rl)).rooms rid).getD []) rl =
      some c0 := by
  have hreg : registerClient st rid rl conn addr now = (false, st) := by
    rw [registerClient]
    simp only [hroom, hnonempty, Bool.false_eq_true, if_false, hocc]
    rw [if_pos hc0]
  have hclean : relayCleanup st conn (some rid) (some rl) = st := by
    rw [relayCleanup]
    simp only [hnoclient, hroom, hocc]
    rw [if_neg (show ¬(some c0 = some conn) from by simpa using hc0)]
  refine ⟨?_, hclean, ?_⟩
  · rw [relayHandleMsg]
    simp only [htype, hrid, hrole]
    rw [if_pos trivial]
    rw [if_neg (show ¬(rl ≠ "host" ∧ rl ≠ "guest") from by
      rcases hvalid with h | h <;> simp [h])]
    rw [if_neg hner]
    simp only [hreg]
  · rw [hclean, hroom]
    exact hocc

/-- C9 witness: room `"room"` has its `host` slot held by connection 5;
connection 7 attempts to register as `host` in the same room. -/
theorem C9_role_exclusivity_witness :
    relayHandleMsg ⟨[("room", [("host", 5)])], [(5, ⟨"room", "host", 0, 0⟩)]⟩ 7 0 none none 0 []
      (Json.obj [("type", Json.str "relay_register"), ("room_id", Json.str "room"),
        ("role", Json.str "host")]) =
      ⟨⟨[("room", [("host", 5)])], [(5, ⟨"room", "host", 0, 0⟩)]⟩, some "room", some "host",
        [(7, RelayCtl.relayError "REGISTER_FAILED")], [], true⟩ ∧
    relayCleanup ⟨[("room", [("host", 5)])], [(5, ⟨"room", "host", 0, 0⟩)]⟩ 7
      (some "room") (some "host") = ⟨[("room", [("host", 5)])], [(5, ⟨"room", "host", 0, 0⟩)]⟩ ∧
    alistGet ((alistGet (relayCleanup ⟨[("room", [("host", 5)])],
      [(5, ⟨"room", "host", 0, 0⟩)]⟩ 7 (some "room") (some "host")).rooms "room").getD [])
      "host" = some 5 :=
  C9_role_exclusivity ⟨[("room", [("host", 5)])], [(5, ⟨"room", "host", 0, 0⟩)]⟩ "room" "host"
    [("host", 5)] 5 7 0 0
    [("type", Json.str "relay_register"), ("room_id", Json.str "room"),
      ("role", Json.str "host")] []
    rfl rfl rfl (Or.inl rfl) (by decide) rfl (by decide) rfl (by decide) rfl

/-! ## Claims: retry semantics (C5) -/

/-- All-retryable-failures run of the attempt loop, from any attempt. -/
theorem retryGo_allfail {α : Type} (op : Nat → CallOutcome α) (e : Nat → Nat) (maxA : Nat)
    (base maxD expB : ℚ) (attempt : Nat)
    (h1 : 1 ≤ attempt) (hle : attempt ≤ maxA)
    (hall : ∀ k, attempt ≤ k → k ≤ maxA → op k = .exn true (e k)) :
    retryGo op maxA base maxD expB attempt =
      (.retryError (e maxA),
        (List.range (maxA - attempt)).map
          (fun k => min maxD (base * expB ^ (attempt - 1 + k)))) := by
  obtain ⟨n, hn⟩ : ∃ n, maxA - attempt = n := ⟨_, rfl⟩
  induction n generalizing attempt with
  | zero =>
    have heq : attempt = maxA := by omega
    subst heq
    rw [retryGo, dif_neg (by omega)]
    simp only [hall attempt le_rfl le_rfl]
    rw [if_pos trivial, hn]
    rfl
  | succ n ih =>
    rw [retryGo, dif_neg (by omega)]
    simp only [hall attempt le_rfl hle]
    rw [if_neg (show ¬attempt = maxA by omega)]
    simp only [ih (attempt + 1) (by omega) (by omega)
      (fun k hk1 hk2 => hall k (by omega) hk2) (by omega)]
    rw [hn, List.range_succ_eq_map, List.map_cons, List.map_map, add_zero,
      show maxA - (attempt + 1) = n from by omega]
    refine congrArg _ (congrArg _ ?_)
    apply List.map_congr_left
    intro k _
    simp only [Function.comp_apply]
    congr 1
    congr 1
    congr 1
    omega

/-- C5. When every one of the `max_attempts` invocations fails with a
retryable error, the wrapper sleeps
`min(max_delay, base_delay * exponential_base ^ (attempt - 1))` after
each non-final attempt, in order, and returns a `RetryError` carrying
the cause of the final attempt; a non-retryable error on the first
attempt propagates immediately with no sleep. -/
theorem C5_retry_semantics {α : Type} (op op2 : Nat → CallOutcome α) (e : Nat → Nat) (e0 : Nat)
    (maxA : Nat) (base maxD expB : ℚ)
    (hmaxA : 1 ≤ maxA)
    (hall : ∀ k, 1 ≤ k → k ≤ maxA → op k = .exn true (e k))
    (hraise : op2 1 = .exn false e0) :
    retry_with_backoff op maxA base maxD expB =
      (.retryError (e maxA),
        (List.range (maxA - 1)).map (fun k => min maxD (base * expB ^ k))) ∧
    retry_with_backoff op2 maxA base maxD expB = (.raised e0, []) := by
  constructor
  · rw [retry_with_backoff, retryGo_allfail op e maxA base maxD expB 1 le_rfl hmaxA hall]
    simp only [Nat.sub_self, Nat.zero_add]
  · rw [retry_with_backoff, retryGo, dif_neg (by omega)]
    simp only [hraise]

/-- C5 witness: three attempts that fail retryably with causes 11, 12, 13
under `base_delay = 1`, `max_delay = 30`, `exponential_base = 2` sleep
1 then 2 and end in `RetryError` with cause 13; a non-retryable cause 99
propagates at once. -/
theorem C5_retry_semantics_witness :
    retry_with_backoff (fun k => CallOutcome.exn (α := Nat) true (10 + k)) 3 1 30 2 =
      (.retryError 13, (List.range 2).map (fun k => min 30 ((1 : ℚ) * 2 ^ k))) ∧
    retry_with_backoff (fun _ => CallOutcome.exn (α := Nat) false 99) 3 1 30 2 =
      (.raised 99, []) :=
  C5_retry_semantics (fun k => CallOutcome.exn true (10 + k)) (fun _ => CallOutcome.exn false 99)
    (fun k => 10 + k) 99 3 1 30 2 (by omega) (fun k _ _ => rfl) rfl

end PetChat